import Mathlib

/-!
Verification of the natural-language specification of the AWS CloudWatch
metricbeat module (`x-pack/metricbeat/module/aws/cloudwatch/cloudwatch.go`)
against a shallow embedding of its code in Lean 4.

Modelling conventions:
* Go strings are `List Char` (`Str`); Go string concatenation is list append.
* Go slices are Lean lists; a `nil` slice and an empty slice are both `[]`.
* Go maps are association lists (`AList`); `m[k] = v` is `insertA`, which
  overwrites in place, and map iteration follows insertion order.
* External calls (AWS API) are oracle functions passed as arguments; a call
  that may fail returns `Except Str`.
* `float64` metric values are opaque payloads the code never computes with;
  they are modelled as `Int`.
* Index accesses that would panic in Go are modelled with `Option`: a `none`
  result marks the out-of-range branch.
* Functions of this repository that live outside the provided source file
  (the shared `aws` and `libbeat/common` helpers) are modelled from the
  spec; each such definition carries a doc comment starting with
  `Modelled from the spec:`.
-/

set_option maxHeartbeats 1000000
set_option synthInstance.maxHeartbeats 400000

namespace Cloudwatch

/-- Go strings are modelled as lists of characters. -/
abbrev Str : Type := List Char

/-- Character list of a Lean string literal. -/
def s2l (s : String) : Str := s.toList

/-- `strings.Split` with a one-character separator (the only form the source
uses: `labelSeparator = "|"`, `dimensionSeparator = ","`, and `"/"`).
`splitOnChar c ""` is `[""]`, matching Go. -/
def splitOnChar (c : Char) : Str → List Str
  | [] => [[]]
  | x :: xs =>
    if x = c then [] :: splitOnChar c xs
    else
      match splitOnChar c xs with
      | [] => [[x]]
      | h :: t => (x :: h) :: t

/-- Association list modelling a Go `map[string]α`. -/
abbrev AList (α : Type) : Type := List (Str × α)

/-- Lookup in a Go map (first matching key). -/
def lookupA {α : Type} : AList α → Str → Option α
  | [], _ => none
  | p :: m, k => if p.1 = k then some p.2 else lookupA m k

/-- Key-membership test for a Go map. -/
def containsA {α : Type} (m : AList α) (k : Str) : Bool :=
  (lookupA m k).isSome

/-- Go map assignment `m[k] = v`: replace the binding in place when the key
is present, append a new binding otherwise. -/
def insertA {α : Type} (m : AList α) (k : Str) (v : α) : AList α :=
  if containsA m k then m.map (fun p => if p.1 = k then (k, v) else p)
  else m ++ [(k, v)]

/-- Go map lookup with the slice zero value: a missing key reads as `nil`,
i.e. the empty list. -/
def lookupTags {α : Type} (m : AList (List α)) (k : Str) : List α :=
  (lookupA m k).getD []

/- ===================== data model (from the source) ===================== -/

/-- `aws.Tag` / `resourcegroupstaggingapitypes.Tag`: a key/value tag pair. -/
structure Tag where
  Key : Str
  Value : Str
deriving DecidableEq, Repr

/-- `Dimension` from the source, and `types.Dimension` from the AWS SDK
(the code dereferences the SDK pointers unconditionally, so name and value
are plain strings here). -/
structure Dimension where
  Name : Str
  Value : Str
deriving DecidableEq, Repr

/-- `types.Metric` from the AWS SDK as used by the source. -/
structure Metric where
  Namespace : Str
  MetricName : Str
  Dimensions : List Dimension
deriving DecidableEq, Repr

/-- `Config`: one entry of the cloudwatch metricset configuration. -/
structure Config where
  Namespace : Str
  MetricName : List Str
  Dimensions : List Dimension
  ResourceType : Str
  Statistic : List Str
deriving DecidableEq, Repr

/-- `MetricsWithStatistics` from the source. -/
structure MetricsWithStatistics where
  CloudwatchMetric : Metric
  Statistic : List Str
deriving DecidableEq, Repr

/-- `ListMetricWithDetail` from the source. -/
structure ListMetricWithDetail where
  MetricsWithStats : List MetricsWithStatistics
  ResourceTypeFilters : AList (List Tag)
deriving DecidableEq, Repr

/-- `NamespaceDetail` from the source. -/
structure NamespaceDetail where
  ResourceTypeFilter : Str
  Names : List Str
  Tags : List Tag
  Statistics : List Str
  Dimensions : List Dimension
deriving DecidableEq, Repr

/- ===================== package-level constants ===================== -/

def metricNameIdx : Nat := 0
def namespaceIdx : Nat := 1
def statisticIdx : Nat := 2
def identifierNameIdx : Nat := 3
def identifierValueIdx : Nat := 4

def defaultStatistics : List Str :=
  [s2l "Average", s2l "Maximum", s2l "Minimum", s2l "Sum", s2l "SampleCount"]

/-- `labelSeparator = "|"` (a one-character separator string). -/
def labelSeparator : Char := '|'

/-- `dimensionSeparator = ","` (a one-character separator string). -/
def dimensionSeparator : Char := ','

def dimensionValueWildcard : Str := s2l "*"

/- ===================== StatisticLookup ===================== -/

/-- `StatisticLookup`: the exact-match table, with the percentile fallback
`strings.HasPrefix(stat, "p")` when no table entry matches. -/
def StatisticLookup (stat : Str) : Str × Bool :=
  let entry : Option Str :=
    if stat = s2l "Average" then some (s2l "avg")
    else if stat = s2l "Sum" then some (s2l "sum")
    else if stat = s2l "Maximum" then some (s2l "max")
    else if stat = s2l "Minimum" then some (s2l "min")
    else if stat = s2l "SampleCount" then some (s2l "count")
    else none
  match entry with
  | some statMethod => (statMethod, true)
  | none => (stat, (s2l "p").isPrefixOf stat)

/- ===================== ConstructLabel ===================== -/

/-- The accumulator loop of `ConstructLabel`: strings joined with the
dimension separator, in list order (the separator is appended after every
element but the last). -/
def joinSep : List Str → Str
  | [] => []
  | [s] => s
  | s :: rest => s ++ dimensionSeparator :: joinSep rest

/-- The `dimNames` accumulator of `ConstructLabel`: dimension names joined
with the separator, in list order. -/
def dimNamesOf (dims : List Dimension) : Str :=
  joinSep (dims.map Dimension.Name)

/-- The `dimValues` accumulator of `ConstructLabel`: dimension values joined
with the separator, in list order. -/
def dimValuesOf (dims : List Dimension) : Str :=
  joinSep (dims.map Dimension.Value)

/-- `ConstructLabel`: label = metricName + "|" + namespace + "|" + statistic,
extended with "|" + dimNames + "|" + dimValues when both joins are
non-empty. -/
def ConstructLabel (metric : Metric) (statistic : Str) : Str :=
  let label := metric.MetricName ++ labelSeparator ::
    (metric.Namespace ++ labelSeparator :: statistic)
  let dimNames := dimNamesOf metric.Dimensions
  let dimValues := dimValuesOf metric.Dimensions
  if dimNames ≠ [] ∧ dimValues ≠ [] then
    label ++ labelSeparator :: (dimNames ++ labelSeparator :: dimValues)
  else label

/- ===================== CreateMetricDataQueries ===================== -/

/-- `strconv.Itoa` for the (non-negative) loop indexes: decimal digits,
fuel-based so it reduces in the kernel. -/
def natToStrAux : Nat → Nat → Str → Str
  | 0, _, acc => acc
  | fuel + 1, n, acc =>
    let d := Nat.digitChar (n % 10)
    if n / 10 = 0 then d :: acc else natToStrAux fuel (n / 10) (d :: acc)

/-- `strconv.Itoa` (for natural numbers). -/
def natToStr (n : Nat) : Str := natToStrAux (n + 1) n []

/-- The query identifier `"cw" + strconv.Itoa(i) + "stats" + strconv.Itoa(j)`
built by `CreateMetricDataQueries`. -/
def queryId (i j : Nat) : Str :=
  s2l "cw" ++ natToStr i ++ s2l "stats" ++ natToStr j

/-- `types.MetricStat` from the AWS SDK as the source fills it. The
`int32(period.Seconds())` conversion is external to the claims; the period
is carried as a number of seconds. -/
structure MetricStat where
  Period : Nat
  Stat : Str
  Metric : Metric
deriving DecidableEq, Repr

/-- `types.MetricDataQuery` from the AWS SDK as the source fills it. -/
structure MetricDataQuery where
  Id : Str
  MetricStat : MetricStat
  Label : Str
deriving DecidableEq, Repr

/-- Inner loop of `CreateMetricDataQueries` (`for j, statistic := range
listMetric.Statistic`), with the running statistic index `j`. -/
def statQueriesAux (i : Nat) (listMetric : MetricsWithStatistics)
    (periodSec : Nat) : Nat → List Str → List MetricDataQuery
  | _, [] => []
  | j, statistic :: rest =>
    { Id := queryId i j
      MetricStat :=
        { Period := periodSec
          Stat := statistic
          Metric := listMetric.CloudwatchMetric }
      Label := ConstructLabel listMetric.CloudwatchMetric statistic } ::
    statQueriesAux i listMetric periodSec (j + 1) rest

/-- Outer loop of `CreateMetricDataQueries` (`for i, listMetric := range
listMetricsTotal`), with the running metric index `i`. -/
def createQueriesAux (periodSec : Nat) : Nat → List MetricsWithStatistics →
    List MetricDataQuery
  | _, [] => []
  | i, listMetric :: rest =>
    statQueriesAux i listMetric periodSec 0 listMetric.Statistic ++
      createQueriesAux periodSec (i + 1) rest

/-- `CreateMetricDataQueries`. -/
def CreateMetricDataQueries (listMetricsTotal : List MetricsWithStatistics)
    (periodSec : Nat) : List MetricDataQuery :=
  createQueriesAux periodSec 0 listMetricsTotal

/- ===================== wildcard & dimension comparison ===================== -/

/-- `ConfigDimensionValueContainsWildcard`. -/
def ConfigDimensionValueContainsWildcard (dim : List Dimension) : Bool :=
  dim.any (fun d => d.Value = dimensionValueWildcard)

/-- The `dim1NameToValue` / `dim2NameToValue` maps of
`CompareAWSDimensions`: name → value, later entries overwriting earlier
ones as in a Go map. -/
def buildNameToValue (dims : List Dimension) : AList Str :=
  dims.foldl (fun m d => insertA m d.Name d.Value) []

/-- One iteration of the wildcard-resolution loop of
`CompareAWSDimensions`: for an entry `(name, v1)` of the first map, when
the second map holds the wildcard at `name`, substitute `v1` there. -/
def resolveStep (m2 : AList Str) (p : Str × Str) : AList Str :=
  match lookupA m2 p.1 with
  | some v2 => if v2 = dimensionValueWildcard then insertA m2 p.1 p.2 else m2
  | none => m2

/-- The wildcard-resolution loop of `CompareAWSDimensions`, over all
entries of the first map. -/
def resolveWildcards (m1 m2 : AList Str) : AList Str :=
  m1.foldl resolveStep m2

/-- `reflect.DeepEqual` on two Go maps: same keys, same values. -/
def mapsEqual (m1 m2 : AList Str) : Bool :=
  (m1.all fun p => lookupA m2 p.1 = lookupA m1 p.1) &&
  (m2.all fun p => lookupA m1 p.1 = lookupA m2 p.1)

/-- `CompareAWSDimensions`. -/
def CompareAWSDimensions (dim1 dim2 : List Dimension) : Bool :=
  if dim1.length ≠ dim2.length then false
  else
    let dim1NameToValue := buildNameToValue dim1
    let dim2NameToValue := buildNameToValue dim2
    mapsEqual dim1NameToValue (resolveWildcards dim1NameToValue dim2NameToValue)

/- ===================== readCloudwatchConfig ===================== -/

/-- The state threaded through the loop of `readCloudwatchConfig`. -/
structure ReadState where
  metricsWithStatsTotal : List MetricsWithStatistics
  resourceTypesWithTags : AList (List Tag)
  namespaceDetailTotal : AList (List NamespaceDetail)
deriving DecidableEq, Repr

/-- The statistic defaulting at the top of the `readCloudwatchConfig` loop:
`if config.Statistic == nil { config.Statistic = defaultStatistics }`. -/
def withDefaultStats (config : Config) : Config :=
  if config.Statistic = [] then { config with Statistic := defaultStatistics }
  else config

/-- Loop body of `readCloudwatchConfig` for one configuration entry.
`tagsFilter` is `m.MetricSet.TagsFilter`. -/
def readConfigStep (tagsFilter : List Tag) (st : ReadState) (config : Config) :
    ReadState :=
  let config := withDefaultStats config
  if config.MetricName ≠ [] ∧ config.Dimensions ≠ [] ∧
      ConfigDimensionValueContainsWildcard config.Dimensions = false then
    { st with
      metricsWithStatsTotal := st.metricsWithStatsTotal ++
        config.MetricName.map (fun mn =>
          { CloudwatchMetric :=
              { Namespace := config.Namespace
                MetricName := mn
                Dimensions := config.Dimensions }
            Statistic := config.Statistic })
      resourceTypesWithTags :=
        if config.ResourceType ≠ [] then
          insertA st.resourceTypesWithTags config.ResourceType tagsFilter
        else st.resourceTypesWithTags }
  else
    { st with
      namespaceDetailTotal :=
        insertA st.namespaceDetailTotal config.Namespace
          ((lookupA st.namespaceDetailTotal config.Namespace).getD [] ++
            [{ ResourceTypeFilter := config.ResourceType
               Names := config.MetricName
               Tags := tagsFilter
               Statistics := config.Statistic
               Dimensions := config.Dimensions }]) }

/-- `readCloudwatchConfig`. -/
def readCloudwatchConfig (tagsFilter : List Tag) (configs : List Config) :
    ListMetricWithDetail × AList (List NamespaceDetail) :=
  let st := configs.foldl (readConfigStep tagsFilter) ⟨[], [], []⟩
  (⟨st.metricsWithStatsTotal, st.resourceTypesWithTags⟩, st.namespaceDetailTotal)

/- ===================== checkStatistics ===================== -/

/-- `checkStatistics`: the first configured statistic rejected by
`StatisticLookup`, when one exists (the Go version returns an error for
it). -/
def checkStatistics (configs : List Config) : Option Str :=
  configs.findSome? (fun config =>
    config.Statistic.find? (fun stat => (StatisticLookup stat).2 = false))

/- ===================== metric discovery & filter ===================== -/

/-- Modelled from the spec: `aws.StringInSlice` (aws module, not under the
provided source) is plain membership of a metric name in the configured
name set. -/
def StringInSlice (s : Str) (l : List Str) : Bool :=
  l.any (fun x => x = s)

/-- Loop body of `FilterListMetricsOutput` for one discovered metric and one
namespace spec: `some` when the spec keeps the metric. -/
def filterForMetric (listMetric : Metric) (configPerNamespace : NamespaceDetail) :
    Option MetricsWithStatistics :=
  if configPerNamespace.Names ≠ [] ∧ configPerNamespace.Dimensions = [] then
    if StringInSlice listMetric.MetricName configPerNamespace.Names then
      some ⟨listMetric, configPerNamespace.Statistics⟩
    else none
  else if configPerNamespace.Names = [] ∧ configPerNamespace.Dimensions ≠ [] then
    if CompareAWSDimensions listMetric.Dimensions configPerNamespace.Dimensions then
      some ⟨listMetric, configPerNamespace.Statistics⟩
    else none
  else if configPerNamespace.Names ≠ [] ∧ configPerNamespace.Dimensions ≠ [] then
    if StringInSlice listMetric.MetricName configPerNamespace.Names ∧
        CompareAWSDimensions listMetric.Dimensions configPerNamespace.Dimensions then
      some ⟨listMetric, configPerNamespace.Statistics⟩
    else none
  else some ⟨listMetric, configPerNamespace.Statistics⟩

/-- `FilterListMetricsOutput`. -/
def FilterListMetricsOutput (listMetricsOutput : List Metric)
    (namespaceDetails : List NamespaceDetail) : List MetricsWithStatistics :=
  listMetricsOutput.foldl
    (fun acc listMetric => acc ++ namespaceDetails.filterMap (filterForMetric listMetric))
    []

/-- `ConstructTagsFilters`: accumulate each namespace spec's tags under its
resource-type filter (appending when the key repeats). -/
def ConstructTagsFilters (namespaceDetails : List NamespaceDetail) :
    AList (List Tag) :=
  namespaceDetails.foldl
    (fun m c =>
      if c.ResourceTypeFilter ≠ [] then
        insertA m c.ResourceTypeFilter
          ((lookupA m c.ResourceTypeFilter).getD [] ++ c.Tags)
      else m)
    []

/- ===================== events and root fields ===================== -/

/-- A value stored in an event's root fields: a metric value (opaque
payload, see the module comment) or a string. -/
inductive FieldVal where
  | num (v : Int)
  | str (s : Str)
deriving DecidableEq, Repr

/-- `mb.Event` as used by the source: a timestamp and the `RootFields`
document. `common.MapStr.Put` keyed by the full dotted path, with
last-write-wins overwrite semantics. -/
structure Event where
  Timestamp : Nat
  RootFields : AList FieldVal
deriving DecidableEq, Repr

/-- Modelled from the spec: the `put(path, value)` operation on an event's
field document (`common.MapStr.Put`, libbeat, not under the provided
source); last write wins. -/
def putField (fs : AList FieldVal) (k : Str) (v : FieldVal) : AList FieldVal :=
  insertA fs k v

/-- Field lookup in an event document. -/
def getField (ev : Event) (k : Str) : Option FieldVal :=
  lookupA ev.RootFields k

/-- Modelled from the spec: `common.DeDot` (libbeat, not under the provided
source) replaces every dot with an underscore. -/
def DeDot (s : Str) : Str :=
  s.map (fun c => if c = '.' then '_' else c)

/-- `StripNamespace`: lowercased last `/`-separated segment of the
namespace. -/
def StripNamespace (namespace' : Str) : Str :=
  let parts := splitOnChar '/' namespace'
  (parts.getLastD []).map Char.toLower

/-- `GenerateFieldName`; `none` marks an out-of-range label access (a Go
panic). -/
def GenerateFieldName (namespace' : Str) (labels : List Str) : Option Str :=
  match labels[statisticIdx]?, labels[metricNameIdx]? with
  | some stat, some metricName =>
    some (s2l "aws." ++ StripNamespace namespace' ++ s2l ".metrics." ++
      DeDot metricName ++ '.' :: (StatisticLookup stat).1)
  | _, _ => none

/-- The dimension-insertion loop of `InsertRootFields`: one
`aws.dimensions.<name>` field per name, reading the value list in lockstep;
`none` marks the out-of-range value access (a Go panic). -/
def putDims (fs : AList FieldVal) : List Str → List Str → Option (AList FieldVal)
  | [], _ => some fs
  | name :: names, values =>
    match values with
    | [] => none
    | v :: vs => putDims (putField fs (s2l "aws.dimensions." ++ name) (.str v)) names vs

/-- `InsertRootFields`; `none` marks any out-of-range index access (a Go
panic). -/
def InsertRootFields (event : Event) (metricValue : Int) (labels : List Str) :
    Option Event :=
  match labels[namespaceIdx]? with
  | none => none
  | some namespace' =>
    match GenerateFieldName namespace' labels with
    | none => none
    | some fieldName =>
      let fs := putField event.RootFields fieldName (.num metricValue)
      let fs := putField fs (s2l "aws.cloudwatch.namespace") (.str namespace')
      if labels.length = 3 then some { event with RootFields := fs }
      else
        match labels[identifierNameIdx]?, labels[identifierValueIdx]? with
        | some dimNamesField, some dimValuesField =>
          let dimNames := splitOnChar dimensionSeparator dimNamesField
          let dimValues := splitOnChar dimensionSeparator dimValuesField
          match putDims fs dimNames dimValues with
          | none => none
          | some fs => some { event with RootFields := fs }
        | _, _ => none

/- ===================== aws-module helpers (modelled) ===================== -/

/-- One `types.MetricDataResult` returned by `GetMetricData`. -/
structure MetricDataResult where
  Label : Str
  Values : List Int
  Timestamps : List Nat
deriving DecidableEq, Repr

/-- Modelled from the spec: `aws.FindTimestamp` (aws module, not under the
provided source) picks the timestamp occurring with the greatest frequency
across all result series, ties broken by recency; `none` is the zero time
(no data at all). Timestamps are abstracted to naturals ordered by time. -/
def FindTimestamp (results : List MetricDataResult) : Option Nat :=
  let ts := results.foldl (fun acc r => acc ++ r.Timestamps) []
  ts.foldl
    (fun best t =>
      match best with
      | none => some t
      | some b =>
        if ts.count t > ts.count b then some t
        else if ts.count t = ts.count b ∧ b < t then some t
        else some b)
    none

/-- Modelled from the spec: `aws.CheckTimestampInArray` (aws module, not
under the provided source) reports whether the chosen timestamp occurs in a
series and at which position. -/
def CheckTimestampInArray (timestamp : Nat) : List Nat → Option Nat
  | [] => none
  | t :: ts =>
    if t = timestamp then some 0
    else (CheckTimestampInArray timestamp ts).map (· + 1)

/-- Modelled from the spec: `aws.InitEvent` (aws module, not under the
provided source) seeds a fresh event with region, account name, account id
and the alignment timestamp. -/
def InitEvent (regionName accountName accountID : Str) (timestamp : Nat) :
    Event :=
  { Timestamp := timestamp
    RootFields :=
      [(s2l "cloud.region", .str regionName),
       (s2l "cloud.account.id", .str accountID),
       (s2l "cloud.account.name", .str accountName)] }

/-- Modelled from the spec: `aws.CheckTagFiltersExist` (aws module, not
under the provided source): every required key/value pair of the tag
predicate must be present in the resource's tags. -/
def CheckTagFiltersExist (tagsFilter : List Tag) (tags : List Tag) : Bool :=
  tagsFilter.all (fun f => tags.any (fun t => t.Key = f.Key ∧ t.Value = f.Value))

/- ===================== InsertTags ===================== -/

/-- The tags `InsertTags` finds for one sub-identifier: a direct lookup,
retried through the derived short identifier when an `arn:`-prefixed
sub-identifier has no direct entry. `findShortIdFromARN` stands for
`aws.FindShortIdentifierFromARN` (aws module, not under the provided
source; the spec fixes no formula, so the derivation is an arbitrary
parameter, `none` marking its error result). -/
def effectiveTags (findShortIdFromARN : Str → Option Str)
    (resourceTagMap : AList (List Tag)) (v : Str) : List Tag :=
  let tags := lookupTags resourceTagMap v
  if tags.length = 0 ∧ (s2l "arn:").isPrefixOf v then
    match findShortIdFromARN v with
    | some resourceID => lookupTags resourceTagMap resourceID
    | none => tags
  else tags

/-- The per-tag `Put` loop of `InsertTags`: key dedotted, value unmodified. -/
def putTagFields (fs : AList FieldVal) (tags : List Tag) : AList FieldVal :=
  tags.foldl (fun fs tag => putField fs (s2l "aws.tags." ++ DeDot tag.Key) (.str tag.Value)) fs

/-- In-place mutation of the event stored under `k` (Go mutates the
`RootFields` map of `events[k]`; `InsertTags` is only invoked on
identifiers present in `events`, and putting into a missing event would be
a nil-map write in Go, so the missing-key case leaves the map unchanged). -/
def updateEventFields (events : AList Event) (k : Str)
    (f : AList FieldVal → AList FieldVal) : AList Event :=
  events.map (fun p =>
    if p.1 = k then (p.1, { p.2 with RootFields := f p.2.RootFields }) else p)

/-- `InsertTags`. -/
def InsertTags (findShortIdFromARN : Str → Option Str) (events : AList Event)
    (identifier : Str) (resourceTagMap : AList (List Tag)) : AList Event :=
  let subIdentifiers := splitOnChar dimensionSeparator identifier
  subIdentifiers.foldl
    (fun events v =>
      let tags := effectiveTags findShortIdFromARN resourceTagMap v
      if tags.length ≠ 0 then
        updateEventFields events identifier (fun fs => putTagFields fs tags)
      else events)
    events

/- ===================== createEvents ===================== -/

/-- Loop body of the `len(resourceTypeTagFilters) == 0` branch of
`createEvents`, for one `metricDataResult`; `none` marks a Go panic. -/
def noFilterStep (regionName accountName accountID : Str) (timestamp : Nat)
    (events : AList Event) (metricDataResult : MetricDataResult) :
    Option (AList Event) :=
  if metricDataResult.Values.length = 0 then some events
  else
    match CheckTimestampInArray timestamp metricDataResult.Timestamps with
    | none => some events
    | some timestampIdx =>
      let labels := splitOnChar labelSeparator metricDataResult.Label
      if labels.length ≠ 5 then
        match labels[namespaceIdx]? with
        | none => none
        | some ns =>
          let identifier := regionName ++ accountID ++ ns
          let base := (lookupA events identifier).getD
            (InitEvent regionName accountName accountID timestamp)
          match metricDataResult.Values[timestampIdx]? with
          | none => none
          | some v =>
            match InsertRootFields base v labels with
            | none => none
            | some ev => some (insertA events identifier ev)
      else
        match labels[identifierValueIdx]? with
        | none => none
        | some identifierValue =>
          let base := (lookupA events identifierValue).getD
            (InitEvent regionName accountName accountID timestamp)
          match metricDataResult.Values[timestampIdx]? with
          | none => none
          | some v =>
            match InsertRootFields base v labels with
            | none => none
            | some ev => some (insertA events identifierValue ev)

/-- Fold of `noFilterStep` over the metric data results. -/
def runResultsNoFilter (regionName accountName accountID : Str)
    (timestamp : Nat) : AList Event → List MetricDataResult →
    Option (AList Event)
  | events, [] => some events
  | events, r :: rest =>
    match noFilterStep regionName accountName accountID timestamp events r with
    | none => none
    | some events' => runResultsNoFilter regionName accountName accountID timestamp events' rest

/-- Loop body of the tag-filter branch of `createEvents`, for one
`output` result under one resource type's `tagsFilter` and filtered
`resourceTagMap`; `none` marks a Go panic. -/
def filterResultStep (findShortIdFromARN : Str → Option Str)
    (regionName accountName accountID : Str) (timestamp : Nat)
    (tagsFilter : List Tag) (resourceTagMap : AList (List Tag))
    (events : AList Event) (output : MetricDataResult) :
    Option (AList Event) :=
  if output.Values.length = 0 then some events
  else
    match CheckTimestampInArray timestamp output.Timestamps with
    | none => some events
    | some timestampIdx =>
      let labels := splitOnChar labelSeparator output.Label
      if labels.length ≠ 5 then
        if tagsFilter.length ≠ 0 then some events
        else
          match labels[namespaceIdx]? with
          | none => none
          | some ns =>
            let identifier := regionName ++ accountID ++ ns
            let base := (lookupA events identifier).getD
              (InitEvent regionName accountName accountID timestamp)
            match output.Values[timestampIdx]? with
            | none => none
            | some v =>
              match InsertRootFields base v labels with
              | none => none
              | some ev => some (insertA events identifier ev)
      else
        match labels[identifierValueIdx]? with
        | none => none
        | some identifierValue =>
          let doInsert : Event → Option (AList Event) := fun base =>
            match output.Values[timestampIdx]? with
            | none => none
            | some v =>
              match InsertRootFields base v labels with
              | none => none
              | some ev =>
                let events := insertA events identifierValue ev
                some (InsertTags findShortIdFromARN events identifierValue resourceTagMap)
          match lookupA events identifierValue with
          | none =>
            if tagsFilter.length ≠ 0 ∧ lookupTags resourceTagMap identifierValue = [] then
              some events
            else doInsert (InitEvent regionName accountName accountID timestamp)
          | some ev => doInsert ev

/-- Fold of `filterResultStep` over the metric data results. -/
def runResultsFiltered (findShortIdFromARN : Str → Option Str)
    (regionName accountName accountID : Str) (timestamp : Nat)
    (tagsFilter : List Tag) (resourceTagMap : AList (List Tag)) :
    AList Event → List MetricDataResult → Option (AList Event)
  | events, [] => some events
  | events, r :: rest =>
    match filterResultStep findShortIdFromARN regionName accountName accountID
        timestamp tagsFilter resourceTagMap events r with
    | none => none
    | some events' =>
      runResultsFiltered findShortIdFromARN regionName accountName accountID
        timestamp tagsFilter resourceTagMap events' rest

/-- Loop body of `for resourceType, tagsFilter := range
resourceTypeTagFilters` in `createEvents`: fetch the resource tags
(`getResourcesTags` is the `aws.GetResourcesTags` call for one resource
type; an error is logged and leaves the map empty), gate on an empty map
under a non-empty filter, filter the map by the tag predicate, then process
every result. -/
def tagRTStep (findShortIdFromARN : Str → Option Str)
    (getResourcesTags : Str → Except Str (AList (List Tag)))
    (regionName accountName accountID : Str) (timestamp : Nat)
    (metricDataResults : List MetricDataResult) (events : AList Event)
    (rtEntry : Str × List Tag) : Option (AList Event) :=
  let tagsFilter := rtEntry.2
  let resourceTagMap :=
    match getResourcesTags rtEntry.1 with
    | .error _ => []
    | .ok m => m
  if tagsFilter.length ≠ 0 ∧ resourceTagMap.length = 0 then some events
  else
    let resourceTagMap := resourceTagMap.filter
      (fun p => CheckTagFiltersExist tagsFilter p.2)
    runResultsFiltered findShortIdFromARN regionName accountName accountID
      timestamp tagsFilter resourceTagMap events metricDataResults

/-- Fold of `tagRTStep` over the resource-type/tag-filter entries. -/
def runTagFilters (findShortIdFromARN : Str → Option Str)
    (getResourcesTags : Str → Except Str (AList (List Tag)))
    (regionName accountName accountID : Str) (timestamp : Nat)
    (metricDataResults : List MetricDataResult) :
    AList Event → AList (List Tag) → Option (AList Event)
  | events, [] => some events
  | events, rt :: rest =>
    match tagRTStep findShortIdFromARN getResourcesTags regionName accountName
        accountID timestamp metricDataResults events rt with
    | none => none
    | some events' =>
      runTagFilters findShortIdFromARN getResourcesTags regionName accountName
        accountID timestamp metricDataResults events' rest

/-- Outcome of `createEvents`: the events map, the propagated
`GetMetricData` error, or a Go panic (out-of-range access). -/
inductive CEOut where
  | ok (events : AList Event)
  | apiErr (e : Str)
  | panicked
deriving DecidableEq, Repr

/-- `createEvents`. `getMetricData` is the external
`aws.GetMetricDataResults` call for this region. -/
def createEvents (getMetricData : List MetricDataQuery → Except Str (List MetricDataResult))
    (getResourcesTags : Str → Except Str (AList (List Tag)))
    (findShortIdFromARN : Str → Option Str)
    (listMetricWithStatsTotal : List MetricsWithStatistics)
    (resourceTypeTagFilters : AList (List Tag))
    (regionName accountName accountID : Str) (periodSec : Nat) : CEOut :=
  let events : AList Event := []
  let metricDataQueries := CreateMetricDataQueries listMetricWithStatsTotal periodSec
  if metricDataQueries.length = 0 then .ok events
  else
    match getMetricData metricDataQueries with
    | .error e => .apiErr e
    | .ok metricDataResults =>
      match FindTimestamp metricDataResults with
      | none => .ok []
      | some timestamp =>
        if resourceTypeTagFilters.length = 0 then
          match runResultsNoFilter regionName accountName accountID timestamp
              events metricDataResults with
          | none => .panicked
          | some evs => .ok evs
        else
          match runTagFilters findShortIdFromARN getResourcesTags regionName
              accountName accountID timestamp metricDataResults events
              resourceTypeTagFilters with
          | none => .panicked
          | some evs => .ok evs

/- ===================== Fetch ===================== -/

/-- The error a `Fetch` invocation can return. -/
inductive FetchError where
  | invalidStatistic (stat : Str)
  | createEventsFailed (region : Str) (e : Str)
  | createEventsPanicked (region : Str)
deriving DecidableEq, Repr

/-- The collaborators and configuration a `Fetch` invocation runs with.
External calls are per-region oracles; `addMetadata` stands for the
metadata enrichment of the discovery path (repository code outside the
provided source; modelled from the spec as an arbitrary transformation of
the assembled events, since the spec leaves it out of scope and no claim
depends on it). -/
structure FetchEnv where
  regions : List Str
  configs : List Config
  tagsFilter : List Tag
  accountName : Str
  accountID : Str
  periodSec : Nat
  getMetricData : Str → List MetricDataQuery → Except Str (List MetricDataResult)
  getListMetrics : Str → Str → Except Str (List Metric)
  getResourcesTags : Str → Str → Except Str (AList (List Tag))
  findShortIdFromARN : Str → Option Str
  addMetadata : Str → Str → AList Event → AList Event

/-- `createEvents` as `Fetch` invokes it for one region. -/
def createEventsIn (env : FetchEnv) (regionName : Str)
    (mws : List MetricsWithStatistics) (rtf : AList (List Tag)) : CEOut :=
  createEvents (env.getMetricData regionName) (env.getResourcesTags regionName)
    env.findShortIdFromARN mws rtf regionName env.accountName env.accountID
    env.periodSec

/-- The first region loop of `Fetch` (exact-mode metrics): report each
region's events; a `createEvents` error aborts the whole invocation. -/
def fetchExactRegions (env : FetchEnv) (lmdt : ListMetricWithDetail) :
    List Str → List Event → List Event × Option FetchError
  | [], reported => (reported, none)
  | regionName :: rest, reported =>
    match createEventsIn env regionName lmdt.MetricsWithStats lmdt.ResourceTypeFilters with
    | .apiErr e => (reported, some (.createEventsFailed regionName e))
    | .panicked => (reported, some (.createEventsPanicked regionName))
    | .ok eventsWithIdentifier =>
      fetchExactRegions env lmdt rest (reported ++ eventsWithIdentifier.map (fun p => p.2))

/-- The namespace loop of `Fetch` inside one region (discovery path): a
`ListMetrics` error or an empty catalog skips the namespace; a
`createEvents` error aborts the whole invocation. -/
def fetchNamespaces (env : FetchEnv) (regionName : Str) :
    AList (List NamespaceDetail) → List Event → List Event × Option FetchError
  | [], reported => (reported, none)
  | (namespace', namespaceDetails) :: rest, reported =>
    match env.getListMetrics namespace' regionName with
    | .error _ => fetchNamespaces env regionName rest reported
    | .ok listMetricsOutput =>
      if listMetricsOutput.length = 0 then fetchNamespaces env regionName rest reported
      else
        let filteredMetricWithStatsTotal :=
          FilterListMetricsOutput listMetricsOutput namespaceDetails
        let resourceTypeTagFilters := ConstructTagsFilters namespaceDetails
        match createEventsIn env regionName filteredMetricWithStatsTotal
            resourceTypeTagFilters with
        | .apiErr e => (reported, some (.createEventsFailed regionName e))
        | .panicked => (reported, some (.createEventsPanicked regionName))
        | .ok eventsWithIdentifier =>
          let events := env.addMetadata namespace' regionName eventsWithIdentifier
          fetchNamespaces env regionName rest (reported ++ events.map (fun p => p.2))

/-- The second region loop of `Fetch` (discovery path). -/
def fetchDiscoveryRegions (env : FetchEnv)
    (namespaceDetailTotal : AList (List NamespaceDetail)) :
    List Str → List Event → List Event × Option FetchError
  | [], reported => (reported, none)
  | regionName :: rest, reported =>
    match fetchNamespaces env regionName namespaceDetailTotal reported with
    | (reported', none) => fetchDiscoveryRegions env namespaceDetailTotal rest reported'
    | out => out

/-- `Fetch`: validate statistics, read the configuration, run the
exact-mode region loop, then the discovery region loop; returns the events
reported in order together with the error ending the invocation, if any. -/
def Fetch (env : FetchEnv) : List Event × Option FetchError :=
  match checkStatistics env.configs with
  | some stat => ([], some (.invalidStatistic stat))
  | none =>
    let cfg := readCloudwatchConfig env.tagsFilter env.configs
    let listMetricDetailTotal := cfg.1
    let namespaceDetailTotal := cfg.2
    let firstPass :=
      if listMetricDetailTotal.MetricsWithStats.length ≠ 0 then
        fetchExactRegions env listMetricDetailTotal env.regions []
      else ([], none)
    match firstPass with
    | (reported, some e) => (reported, some e)
    | (reported, none) =>
      fetchDiscoveryRegions env namespaceDetailTotal env.regions reported

/- ===================== spec-side definitions ===================== -/

/-- First entry of a Go map's association list holding a key. -/
def findEntry {α : Type} (m : AList α) (k : Str) : Option (Str × α) :=
  m.find? (fun p => p.1 = k)

/-- The keys of an association list are pairwise distinct (true of every
list built by Go map assignments). -/
def keysNodup {α : Type} (m : AList α) : Prop :=
  (m.map Prod.fst).Nodup

/-- The spec's wording of wildcard substitution for one entry of the
second (spec-side) map: a wildcard sentinel value is replaced by the
discovered value of the same dimension name, when one exists. -/
def substituteEntry (m1 : AList Str) (p : Str × Str) : Str × Str :=
  if p.2 = dimensionValueWildcard then
    match lookupA m1 p.1 with
    | some v1 => (p.1, v1)
    | none => p
  else p

/-- The spec's wording of wildcard resolution over the whole second map. -/
def specSubstitute (m1 m2 : AList Str) : AList Str :=
  m2.map (substituteEntry m1)

/-- The spec's wording of dimension matching: equal cardinality and, after
wildcard substitution, identical name→value mappings. -/
def specDimensionsMatch (dim1 dim2 : List Dimension) : Prop :=
  dim1.length = dim2.length ∧
  ∀ k, lookupA (buildNameToValue dim1) k =
    lookupA (specSubstitute (buildNameToValue dim1) (buildNameToValue dim2)) k

/-- The exact-mode routing condition of `readCloudwatchConfig`, as the spec
words it: metric names and dimensions both given, no wildcard dimension
value. -/
def exactModeCond (config : Config) : Prop :=
  config.MetricName ≠ [] ∧ config.Dimensions ≠ [] ∧
    ConfigDimensionValueContainsWildcard config.Dimensions = false

instance (config : Config) : Decidable (exactModeCond config) := by
  unfold exactModeCond; infer_instance

/-- All tags `InsertTags` finds for an identifier: the effective tags of
each comma-separated sub-identifier, concatenated in traversal order. -/
def collectedTags (findShortIdFromARN : Str → Option Str)
    (resourceTagMap : AList (List Tag)) (identifier : Str) : List Tag :=
  ((splitOnChar dimensionSeparator identifier).map
    (effectiveTags findShortIdFromARN resourceTagMap)).flatten

/-- The last tag of a list whose `aws.tags.<dedotted key>` field path is
`k` — the one whose value survives the last-write-wins puts. -/
def lastTagFor (ts : List Tag) (k : Str) : Option Tag :=
  match ts with
  | [] => none
  | t :: ts' =>
    match lastTagFor ts' k with
    | some t' => some t'
    | none => if s2l "aws.tags." ++ DeDot t.Key = k then some t else none

/-- Decimal digits of a natural number, by well-founded recursion over
division by ten; proof-side mirror of `natToStr`. -/
def digitsND (n : Nat) : List Char :=
  if h : n < 10 then [Nat.digitChar n]
  else
    have : n / 10 < n := Nat.div_lt_self (by omega) (by omega)
    digitsND (n / 10) ++ [Nat.digitChar (n % 10)]

/- ===================== association-list lemmas ===================== -/

theorem lookupA_append_left {α : Type} {m1 : AList α} {k : Str}
    (h : lookupA m1 k = none) (m2 : AList α) :
    lookupA (m1 ++ m2) k = lookupA m2 k := by
  induction m1 with
  | nil => simp
  | cons p m ih =>
    by_cases hp : p.1 = k
    · simp [lookupA, hp] at h
    · simp [lookupA, hp] at h ⊢
      exact ih h

theorem lookupA_append_some {α : Type} {m1 : AList α} {k : Str} {v : α}
    (h : lookupA m1 k = some v) (m2 : AList α) :
    lookupA (m1 ++ m2) k = some v := by
  induction m1 with
  | nil => simp [lookupA] at h
  | cons p m ih =>
    by_cases hp : p.1 = k
    · simp [lookupA, hp] at h ⊢; exact h
    · simp [lookupA, hp] at h ⊢; exact ih h

theorem containsA_iff {α : Type} (m : AList α) (k : Str) :
    containsA m k = true ↔ ∃ p ∈ m, p.1 = k := by
  induction m with
  | nil =>
    constructor
    · intro h; exact absurd h (by simp [containsA, lookupA])
    · rintro ⟨p, hp, _⟩; exact absurd hp (List.not_mem_nil p)
  | cons p m ih =>
    by_cases hp : p.1 = k
    · constructor
      · intro _; exact ⟨p, List.mem_cons_self p m, hp⟩
      · intro _; simp [containsA, lookupA, hp]
    · have hstep : containsA (p :: m) k = containsA m k := by
        simp [containsA, lookupA, hp]
      rw [hstep, ih]
      constructor
      · rintro ⟨q, hq, hqk⟩; exact ⟨q, List.mem_cons_of_mem p hq, hqk⟩
      · rintro ⟨q, hq, hqk⟩
        rcases List.mem_cons.mp hq with h | h
        · subst h; exact absurd hqk hp
        · exact ⟨q, h, hqk⟩

theorem lookupA_eq_none_iff {α : Type} (m : AList α) (k : Str) :
    lookupA m k = none ↔ ∀ p ∈ m, p.1 ≠ k := by
  induction m with
  | nil =>
    constructor
    · intro _ p hp _; exact absurd hp (List.not_mem_nil p)
    · intro _; rfl
  | cons p m ih =>
    by_cases hp : p.1 = k
    · constructor
      · intro h; simp only [lookupA, if_pos hp] at h; exact absurd h (by simp)
      · intro h; exact absurd hp (h p (List.mem_cons_self p m))
    · simp only [lookupA, if_neg hp]
      rw [ih]
      constructor
      · intro h q hq
        rcases List.mem_cons.mp hq with rfl | hq
        · exact hp
        · exact h q hq
      · intro h q hq; exact h q (List.mem_cons_of_mem p hq)

theorem lookupA_mem {α : Type} {m : AList α} {k : Str} {v : α}
    (h : lookupA m k = some v) : (k, v) ∈ m := by
  induction m with
  | nil => exact absurd h (by simp [lookupA])
  | cons p m ih =>
    by_cases hp : p.1 = k
    · simp only [lookupA, if_pos hp, Option.some.injEq] at h
      have hpv : p = (k, v) := by
        cases p with
        | mk a b =>
          simp only at hp h
          rw [hp, h]
      rw [← hpv]
      exact List.mem_cons_self p m
    · simp only [lookupA, if_neg hp] at h
      exact List.mem_cons_of_mem _ (ih h)

theorem keys_map_keyFixing {α : Type} (m : AList α) (f : Str × α → Str × α)
    (hf : ∀ p, (f p).1 = p.1) : (m.map f).map Prod.fst = m.map Prod.fst := by
  induction m with
  | nil => rfl
  | cons p m ih => simp [hf, ih]

theorem lookupA_replaceKey {α : Type} (m : AList α) (k k' : Str) (v : α) :
    lookupA (m.map fun p => if p.1 = k then (k, v) else p) k' =
      if k' = k then (if containsA m k then some v else none)
      else lookupA m k' := by
  induction m with
  | nil => simp [lookupA, containsA]
  | cons p m ih =>
    by_cases hp : p.1 = k
    · by_cases hk : k' = k
      · subst hk
        simp [lookupA, hp, containsA]
      · have hkk : ¬(k = k') := fun h => hk h.symm
        have hpk' : ¬(p.1 = k') := by rw [hp]; exact hkk
        simp only [List.map_cons, if_pos hp, lookupA, if_neg hkk, if_neg hk, if_neg hpk']
        rw [ih, if_neg hk]
    · have hcont : containsA (p :: m) k = containsA m k := by
        simp [containsA, lookupA, hp]
      by_cases hk' : p.1 = k'
      · have hkk : ¬(k' = k) := fun h => hp (hk'.trans h)
        simp [lookupA, hp, hk', hkk]
      · simp only [List.map_cons, lookupA, hp, if_false, if_neg hk']
        rw [ih, hcont]

theorem lookupA_insertA {α : Type} (m : AList α) (k k' : Str) (v : α) :
    lookupA (insertA m k v) k' = if k' = k then some v else lookupA m k' := by
  unfold insertA
  by_cases h : containsA m k
  · rw [if_pos h, lookupA_replaceKey]
    simp [h]
  · rw [if_neg h]
    have hnone : lookupA m k = none := by
      unfold containsA at h
      cases hl : lookupA m k with
      | none => rfl
      | some v => rw [hl] at h; simp at h
    by_cases hk : k' = k
    · subst hk
      rw [lookupA_append_left hnone]
      simp [lookupA]
    · have hkk : ¬(k = k') := fun h => hk h.symm
      cases hl : lookupA m k' with
      | none => rw [lookupA_append_left hl]; simp [lookupA, hk, hl, hkk]
      | some w => rw [lookupA_append_some hl]; simp [hk, hl]

theorem keys_insertA {α : Type} (m : AList α) (k : Str) (v : α) :
    (insertA m k v).map Prod.fst =
      if containsA m k then m.map Prod.fst else m.map Prod.fst ++ [k] := by
  unfold insertA
  by_cases h : containsA m k
  · rw [if_pos h, if_pos h]
    apply keys_map_keyFixing
    intro p
    by_cases hp : p.1 = k <;> simp [hp]
  · rw [if_neg h, if_neg h]
    simp

theorem mapsEqual_iff (m1 m2 : AList Str) :
    mapsEqual m1 m2 = true ↔ ∀ k, lookupA m1 k = lookupA m2 k := by
  unfold mapsEqual
  rw [Bool.and_eq_true, List.all_eq_true, List.all_eq_true]
  constructor
  · rintro ⟨h1, h2⟩ k
    by_cases hc1 : ∃ p ∈ m1, p.1 = k
    · obtain ⟨p, hp, rfl⟩ := hc1
      exact (of_decide_eq_true (h1 p hp)).symm
    · by_cases hc2 : ∃ p ∈ m2, p.1 = k
      · obtain ⟨p, hp, rfl⟩ := hc2
        exact of_decide_eq_true (h2 p hp)
      · rw [(lookupA_eq_none_iff m1 k).mpr, (lookupA_eq_none_iff m2 k).mpr]
        · intro p hp hk; exact hc2 ⟨p, hp, hk⟩
        · intro p hp hk; exact hc1 ⟨p, hp, hk⟩
  · intro h
    constructor
    · intro p _; exact decide_eq_true (h p.1).symm
    · intro p _; exact decide_eq_true (h p.1)

theorem mapsEqual_comm (m1 m2 : AList Str) :
    mapsEqual m1 m2 = mapsEqual m2 m1 := by
  cases h12 : mapsEqual m1 m2 <;> cases h21 : mapsEqual m2 m1 <;> try rfl
  · have h : mapsEqual m1 m2 = true :=
      (mapsEqual_iff m1 m2).mpr (fun k => ((mapsEqual_iff m2 m1).mp h21 k).symm)
    rw [h12] at h; exact h
  · have h : mapsEqual m2 m1 = true :=
      (mapsEqual_iff m2 m1).mpr (fun k => ((mapsEqual_iff m1 m2).mp h12 k).symm)
    rw [h21] at h; exact h.symm

/- ===================== C6: statistic resolver ===================== -/

/-- C6: `StatisticLookup` maps exactly the five canonical names
(Average→avg, Sum→sum, Maximum→max, Minimum→min, SampleCount→count) with
ok=true; every other string starting with "p" is returned unchanged with
ok=true; every remaining string yields ok=false. -/
theorem C6_statistic_lookup :
    StatisticLookup (s2l "Average") = (s2l "avg", true) ∧
    StatisticLookup (s2l "Sum") = (s2l "sum", true) ∧
    StatisticLookup (s2l "Maximum") = (s2l "max", true) ∧
    StatisticLookup (s2l "Minimum") = (s2l "min", true) ∧
    StatisticLookup (s2l "SampleCount") = (s2l "count", true) ∧
    (∀ s : Str,
      s ∉ [s2l "Average", s2l "Sum", s2l "Maximum", s2l "Minimum", s2l "SampleCount"] →
      (s2l "p").isPrefixOf s = true → StatisticLookup s = (s, true)) ∧
    (∀ s : Str,
      s ∉ [s2l "Average", s2l "Sum", s2l "Maximum", s2l "Minimum", s2l "SampleCount"] →
      (s2l "p").isPrefixOf s = false → StatisticLookup s = (s, false)) := by
  refine ⟨by decide, by decide, by decide, by decide, by decide, ?_, ?_⟩
  · intro s hs hp
    simp only [List.mem_cons, List.not_mem_nil, or_false, not_or] at hs
    obtain ⟨h1, h2, h3, h4, h5⟩ := hs
    simp [StatisticLookup, h1, h2, h3, h4, h5, hp]
  · intro s hs hp
    simp only [List.mem_cons, List.not_mem_nil, or_false, not_or] at hs
    obtain ⟨h1, h2, h3, h4, h5⟩ := hs
    simp [StatisticLookup, h1, h2, h3, h4, h5, hp]

/-- C6 witness: the percentile fallback at the concrete input "p95". -/
theorem C6_statistic_lookup_witness :
    StatisticLookup (s2l "p95") = (s2l "p95", true) :=
  C6_statistic_lookup.2.2.2.2.2.1 (s2l "p95") (by decide) (by decide)

/- ===================== findEntry lemmas ===================== -/

theorem findEntry_cons {α : Type} (q : Str × α) (m : AList α) (k : Str) :
    findEntry (q :: m) k = if q.1 = k then some q else findEntry m k := by
  by_cases h : q.1 = k
  · simp [findEntry, List.find?_cons, h]
  · simp [findEntry, List.find?_cons, h]

theorem lookupA_eq_findEntry {α : Type} (m : AList α) (k : Str) :
    lookupA m k = (findEntry m k).map Prod.snd := by
  induction m with
  | nil => simp [lookupA, findEntry]
  | cons q m ih =>
    rw [findEntry_cons]
    by_cases h : q.1 = k
    · simp [lookupA, h]
    · simp [lookupA, h, ih]

theorem findEntry_key {α : Type} {m : AList α} {k : Str} {p : Str × α}
    (h : findEntry m k = some p) : p.1 = k ∧ p ∈ m := by
  have h1 := List.find?_some h
  have h2 := List.mem_of_find?_eq_some h
  exact ⟨of_decide_eq_true h1, h2⟩

theorem findEntry_replace_ne {α : Type} (m : AList α) (n k : Str) (v : α)
    (h : k ≠ n) :
    findEntry (m.map fun p => if p.1 = n then (n, v) else p) k = findEntry m k := by
  induction m with
  | nil => rfl
  | cons q m ih =>
    simp only [List.map_cons]
    rw [findEntry_cons, findEntry_cons]
    by_cases hq : q.1 = n
    · rw [if_pos hq]
      have h1 : ¬((n, v).1 = k) := fun hh => h hh.symm
      have h2 : ¬(q.1 = k) := by rw [hq]; exact fun hh => h hh.symm
      rw [if_neg h1, if_neg h2, ih]
    · rw [if_neg hq]
      by_cases hqk : q.1 = k
      · rw [if_pos hqk, if_pos hqk]
      · rw [if_neg hqk, if_neg hqk, ih]

theorem findEntry_append_ne {α : Type} (m : AList α) (n k : Str) (v : α)
    (h : k ≠ n) : findEntry (m ++ [(n, v)]) k = findEntry m k := by
  induction m with
  | nil =>
    rw [List.nil_append, findEntry_cons]
    exact if_neg (fun hh => h hh.symm)
  | cons q m ih =>
    rw [List.cons_append, findEntry_cons, findEntry_cons]
    by_cases hqk : q.1 = k
    · rw [if_pos hqk, if_pos hqk]
    · rw [if_neg hqk, if_neg hqk, ih]

theorem findEntry_insertA_ne {α : Type} (m : AList α) (n k : Str) (v : α)
    (h : k ≠ n) : findEntry (insertA m n v) k = findEntry m k := by
  unfold insertA
  by_cases hc : containsA m n
  · rw [if_pos hc]; exact findEntry_replace_ne m n k v h
  · rw [if_neg hc]; exact findEntry_append_ne m n k v h

theorem findEntry_insertA_self {α : Type} (m : AList α) (n : Str) (v : α) :
    findEntry (insertA m n v) n = some (n, v) := by
  unfold insertA
  by_cases hc : containsA m n
  · rw [if_pos hc]
    rw [containsA_iff] at hc
    induction m with
    | nil => exact absurd hc (by rintro ⟨p, hp, _⟩; exact List.not_mem_nil p hp)
    | cons q m ih =>
      simp only [List.map_cons]
      rw [findEntry_cons]
      by_cases hq : q.1 = n
      · rw [if_pos hq]; exact if_pos rfl
      · rw [if_neg hq, if_neg hq]
        apply ih
        obtain ⟨p, hp, hpk⟩ := hc
        rcases List.mem_cons.mp hp with rfl | hp
        · exact absurd hpk hq
        · exact ⟨p, hp, hpk⟩
  · rw [if_neg hc]
    have hnone : lookupA m n = none := by
      unfold containsA at hc
      cases hl : lookupA m n with
      | none => rfl
      | some w => rw [hl] at hc; exact absurd rfl hc
    rw [lookupA_eq_none_iff] at hnone
    induction m with
    | nil => rw [List.nil_append, findEntry_cons, if_pos rfl]
    | cons q m ih =>
      rw [List.cons_append, findEntry_cons]
      have hq : ¬(q.1 = n) := hnone q (List.mem_cons_self q m)
      rw [if_neg hq]
      have hcm : ¬containsA m n = true := by
        intro hm
        exact hc (by simpa [containsA, lookupA, hq] using hm)
      exact ih hcm (fun p hp => hnone p (List.mem_cons_of_mem q hp))

/- ===================== wildcard-resolution lemmas ===================== -/

theorem substituteEntry_key (m1 : AList Str) (p : Str × Str) :
    (substituteEntry m1 p).1 = p.1 := by
  unfold substituteEntry
  by_cases h : p.2 = dimensionValueWildcard
  · rw [if_pos h]
    cases lookupA m1 p.1 <;> rfl
  · rw [if_neg h]

theorem specSubstitute_lookup (m1 m2 : AList Str) (k : Str) :
    lookupA (specSubstitute m1 m2) k =
      (findEntry m2 k).map (fun p => (substituteEntry m1 p).2) := by
  induction m2 with
  | nil => rfl
  | cons q m2 ih =>
    simp only [specSubstitute, List.map_cons] at ih ⊢
    rw [findEntry_cons]
    by_cases hq : q.1 = k
    · have hkey : (substituteEntry m1 q).1 = k := by rw [substituteEntry_key, hq]
      simp only [lookupA, if_pos hkey, if_pos hq, Option.map_some']
    · have hkey : ¬((substituteEntry m1 q).1 = k) := by rw [substituteEntry_key]; exact hq
      simp only [lookupA, if_neg hkey, if_neg hq, ih]

theorem substitute_step_lookup (n v1 : Str) (m1' m2 : AList Str)
    (hn : ∀ p ∈ m1', p.1 ≠ n) (k : Str) :
    lookupA (specSubstitute m1' (resolveStep m2 (n, v1))) k =
      lookupA (specSubstitute ((n, v1) :: m1') m2) k := by
  rw [specSubstitute_lookup, specSubstitute_lookup]
  have hm1n : lookupA m1' n = none := (lookupA_eq_none_iff m1' n).mpr hn
  by_cases hk : k = n
  · subst hk
    cases hw : lookupA m2 k with
    | none =>
      have hstep : resolveStep m2 (k, v1) = m2 := by
        simp only [resolveStep, hw]
      have hfe : findEntry m2 k = none := by
        have h1 := lookupA_eq_findEntry m2 k
        rw [hw] at h1
        exact (Option.map_eq_none').mp h1.symm
      rw [hstep, hfe]
      rfl
    | some v2 =>
      have hfe : ∃ p, findEntry m2 k = some p ∧ p.1 = k ∧ p.2 = v2 := by
        have h1 := lookupA_eq_findEntry m2 k
        rw [hw] at h1
        cases hfe : findEntry m2 k with
        | none => rw [hfe] at h1; exact absurd h1 (by simp)
        | some p =>
          rw [hfe] at h1
          exact ⟨p, rfl, (findEntry_key hfe).1, by simpa using h1.symm⟩
      obtain ⟨p, hfep, hpk, hpv⟩ := hfe
      by_cases hv2 : v2 = dimensionValueWildcard
      · have hstep : resolveStep m2 (k, v1) = insertA m2 k v1 := by
          simp only [resolveStep, hw, if_pos hv2]
        rw [hstep, findEntry_insertA_self, hfep]
        have hL : (substituteEntry m1' (k, v1)).2 = v1 := by
          by_cases hv1 : v1 = dimensionValueWildcard
          · simp [substituteEntry, hv1, hm1n]
          · simp [substituteEntry, if_neg hv1]
        have hR : (substituteEntry ((k, v1) :: m1') p).2 = v1 := by
          simp [substituteEntry, hpv, hv2, hpk, lookupA]
        rw [Option.map_some', Option.map_some', hL, hR]
      · have hstep : resolveStep m2 (k, v1) = m2 := by
          simp only [resolveStep, hw, if_neg hv2]
        rw [hstep, hfep, Option.map_some', Option.map_some']
        have hL : (substituteEntry m1' p).2 = p.2 := by
          simp only [substituteEntry, hpv, if_neg hv2]
        have hR : (substituteEntry ((k, v1) :: m1') p).2 = p.2 := by
          simp only [substituteEntry, hpv, if_neg hv2]
        rw [hL, hR]
  · have hstep : findEntry (resolveStep m2 (n, v1)) k = findEntry m2 k := by
      cases hw : lookupA m2 n with
      | none => simp only [resolveStep, hw]
      | some v2 =>
        by_cases hv2 : v2 = dimensionValueWildcard
        · simp only [resolveStep, hw, if_pos hv2]
          exact findEntry_insertA_ne m2 n k v1 hk
        · simp only [resolveStep, hw, if_neg hv2]
    rw [hstep]
    cases hfe : findEntry m2 k with
    | none => rfl
    | some p =>
      have hpk : p.1 = k := (findEntry_key hfe).1
      rw [Option.map_some', Option.map_some']
      have hsub : substituteEntry m1' p = substituteEntry ((n, v1) :: m1') p := by
        by_cases hpv : p.2 = dimensionValueWildcard
        · have hne : ¬(n = p.1) := by
            rw [hpk]
            exact fun h => hk h.symm
          simp only [substituteEntry, if_pos hpv, lookupA, if_neg hne]
        · simp only [substituteEntry, if_neg hpv]
      rw [hsub]

theorem resolveWildcards_cons (n v1 : Str) (m1' m2 : AList Str) :
    resolveWildcards ((n, v1) :: m1') m2 =
      resolveWildcards m1' (resolveStep m2 (n, v1)) := by
  simp [resolveWildcards]

theorem resolveWildcards_lookup (m1 : AList Str) (h : keysNodup m1)
    (m2 : AList Str) (k : Str) :
    lookupA (resolveWildcards m1 m2) k = lookupA (specSubstitute m1 m2) k := by
  induction m1 generalizing m2 with
  | nil =>
    have h2 : lookupA (specSubstitute [] m2) k =
        (findEntry m2 k).map (fun p => (substituteEntry [] p).2) :=
      specSubstitute_lookup [] m2 k
    have h3 : ∀ p : Str × Str, (substituteEntry [] p).2 = p.2 := by
      intro p
      unfold substituteEntry
      by_cases hp : p.2 = dimensionValueWildcard
      · rw [if_pos hp]; rfl
      · rw [if_neg hp]
    rw [show resolveWildcards [] m2 = m2 from rfl, h2]
    rw [lookupA_eq_findEntry]
    cases findEntry m2 k with
    | none => rfl
    | some p => rw [Option.map_some', Option.map_some', h3]
  | cons q m1' ih =>
    obtain ⟨n, v1⟩ := q
    have hkeys : (n :: m1'.map Prod.fst).Nodup := by
      simpa [keysNodup] using h
    have hn : ∀ p ∈ m1', p.1 ≠ n := by
      intro p hp hpn
      have : n ∈ m1'.map Prod.fst := List.mem_map.mpr ⟨p, hp, hpn⟩
      exact (List.nodup_cons.mp hkeys).1 this
    have h' : keysNodup m1' := by
      simpa [keysNodup] using (List.nodup_cons.mp hkeys).2
    rw [resolveWildcards_cons, ih h', substitute_step_lookup n v1 m1' m2 hn k]

/- ===================== buildNameToValue lemmas ===================== -/

theorem keysNodup_insertA {α : Type} (m : AList α) (k : Str) (v : α)
    (h : keysNodup m) : keysNodup (insertA m k v) := by
  unfold keysNodup
  rw [keys_insertA]
  by_cases hc : containsA m k
  · rw [if_pos hc]; exact h
  · rw [if_neg hc]
    have hnone : lookupA m k = none := by
      unfold containsA at hc
      cases hl : lookupA m k with
      | none => rfl
      | some w => rw [hl] at hc; exact absurd rfl hc
    have hkmem : k ∉ m.map Prod.fst := by
      intro hmem
      obtain ⟨p, hp, hpk⟩ := List.mem_map.mp hmem
      exact ((lookupA_eq_none_iff m k).mp hnone) p hp hpk
    rw [List.nodup_append]
    exact ⟨h, List.nodup_singleton k, by
      intro a ha hb
      rw [List.mem_singleton] at hb
      subst hb
      exact hkmem ha⟩

theorem keysNodup_buildAux (dims : List Dimension) :
    ∀ m : AList Str, keysNodup m →
      keysNodup (dims.foldl (fun m d => insertA m d.Name d.Value) m) := by
  induction dims with
  | nil => intro m h; exact h
  | cons d dims ih =>
    intro m h
    rw [List.foldl_cons]
    exact ih _ (keysNodup_insertA m d.Name d.Value h)

theorem keysNodup_build (dims : List Dimension) :
    keysNodup (buildNameToValue dims) :=
  keysNodup_buildAux dims [] (by simp [keysNodup])

theorem mem_insertA {α : Type} {m : AList α} {k : Str} {v : α} {p : Str × α}
    (h : p ∈ insertA m k v) : p ∈ m ∨ p = (k, v) := by
  unfold insertA at h
  by_cases hc : containsA m k
  · rw [if_pos hc] at h
    obtain ⟨q, hq, hfq⟩ := List.mem_map.mp h
    by_cases hqk : q.1 = k
    · rw [if_pos hqk] at hfq; right; exact hfq.symm
    · rw [if_neg hqk] at hfq; left; rw [← hfq]; exact hq
  · rw [if_neg hc] at h
    rcases List.mem_append.mp h with h | h
    · left; exact h
    · right; simpa using h

theorem build_entriesAux (dims : List Dimension) :
    ∀ (m : AList Str) (p : Str × Str),
      p ∈ dims.foldl (fun m d => insertA m d.Name d.Value) m →
      p ∈ m ∨ ∃ d ∈ dims, p = (d.Name, d.Value) := by
  induction dims with
  | nil => intro m p hp; left; exact hp
  | cons d dims ih =>
    intro m p hp
    rw [List.foldl_cons] at hp
    rcases ih _ p hp with h | ⟨d', hd', hpd⟩
    · rcases mem_insertA h with h | h
      · left; exact h
      · right; exact ⟨d, List.mem_cons_self d dims, h⟩
    · right; exact ⟨d', List.mem_cons_of_mem d hd', hpd⟩

theorem build_entries {dims : List Dimension} {p : Str × Str}
    (h : p ∈ buildNameToValue dims) : ∃ d ∈ dims, p = (d.Name, d.Value) := by
  rcases build_entriesAux dims [] p h with h | h
  · exact absurd h (List.not_mem_nil p)
  · exact h

theorem lookup_build_ne_wildcard {dims : List Dimension}
    (h : ∀ d ∈ dims, d.Value ≠ dimensionValueWildcard) (n : Str) :
    lookupA (buildNameToValue dims) n ≠ some dimensionValueWildcard := by
  intro hl
  obtain ⟨d, hd, hpd⟩ := build_entries (lookupA_mem hl)
  have : d.Value = dimensionValueWildcard := by
    have := congrArg Prod.snd hpd
    simpa using this.symm
  exact h d hd this

theorem resolveWildcards_noop (m1 m2 : AList Str)
    (h : ∀ n, lookupA m2 n ≠ some dimensionValueWildcard) :
    resolveWildcards m1 m2 = m2 := by
  induction m1 with
  | nil => rfl
  | cons p m1' ih =>
    have hstep : resolveStep m2 p = m2 := by
      cases hw : lookupA m2 p.1 with
      | none => simp only [resolveStep, hw]
      | some v2 =>
        by_cases hv2 : v2 = dimensionValueWildcard
        · subst hv2; exact absurd hw (h p.1)
        · simp only [resolveStep, hw, if_neg hv2]
    have : resolveWildcards (p :: m1') m2 = resolveWildcards m1' (resolveStep m2 p) := by
      simp [resolveWildcards]
    rw [this, hstep, ih]

/- ===================== C4: dimension comparison ===================== -/

/-- C4: `CompareAWSDimensions` returns true exactly when the two lists have
equal cardinality and, after substituting the wildcard sentinel values of
the second list's mapping with the first list's values of the same name,
the two name→value mappings are identical; it is commutative on
wildcard-free inputs, and the three concrete example comparisons hold. -/
theorem C4_compare_dimensions (dim1 dim2 : List Dimension) :
    (CompareAWSDimensions dim1 dim2 = true ↔ specDimensionsMatch dim1 dim2) ∧
    ((∀ d ∈ dim1, d.Value ≠ dimensionValueWildcard) →
      (∀ d ∈ dim2, d.Value ≠ dimensionValueWildcard) →
      CompareAWSDimensions dim1 dim2 = CompareAWSDimensions dim2 dim1) ∧
    CompareAWSDimensions [⟨s2l "A", s2l "x"⟩] [⟨s2l "A", s2l "*"⟩] = true ∧
    CompareAWSDimensions [⟨s2l "A", s2l "x"⟩] [⟨s2l "A", s2l "y"⟩] = false ∧
    CompareAWSDimensions [⟨s2l "A", s2l "x"⟩, ⟨s2l "B", s2l "y"⟩]
      [⟨s2l "A", s2l "x"⟩] = false := by
  refine ⟨?_, ?_, by decide, by decide, by decide⟩
  · unfold CompareAWSDimensions specDimensionsMatch
    by_cases hlen : dim1.length = dim2.length
    · rw [if_neg (by simpa using hlen)]
      rw [mapsEqual_iff]
      constructor
      · intro h
        refine ⟨hlen, fun k => ?_⟩
        rw [h k, resolveWildcards_lookup _ (keysNodup_build dim1)]
      · rintro ⟨_, h⟩ k
        rw [resolveWildcards_lookup _ (keysNodup_build dim1)]
        exact h k
    · rw [if_pos (by simpa using hlen)]
      simp [hlen]
  · intro h1 h2
    unfold CompareAWSDimensions
    by_cases hlen : dim1.length = dim2.length
    · rw [if_neg (by simpa using hlen), if_neg (by simpa using hlen.symm)]
      dsimp only
      rw [resolveWildcards_noop _ _ (fun n => lookup_build_ne_wildcard h2 n),
        resolveWildcards_noop _ _ (fun n => lookup_build_ne_wildcard h1 n)]
      exact mapsEqual_comm _ _
    · rw [if_pos (by simpa using hlen),
        if_pos (by simpa using (fun h => hlen h.symm : ¬dim2.length = dim1.length))]

/-- C4 witness: the theorem instantiated at `[(A, x)]` against `[(A, *)]`,
whose comparison succeeds and satisfies the spec-side match. -/
theorem C4_compare_dimensions_witness :
    specDimensionsMatch [⟨s2l "A", s2l "x"⟩] [⟨s2l "A", s2l "*"⟩] :=
  ((C4_compare_dimensions [⟨s2l "A", s2l "x"⟩] [⟨s2l "A", s2l "*"⟩]).1).mp
    (by decide)

/- ===================== splitOnChar lemmas ===================== -/

theorem splitOnChar_ne_nil (c : Char) (s : Str) : splitOnChar c s ≠ [] := by
  induction s with
  | nil => simp [splitOnChar]
  | cons x xs ih =>
    by_cases h : x = c
    · simp [splitOnChar, h]
    · simp only [splitOnChar, if_neg h]
      cases hs : splitOnChar c xs with
      | nil => simp
      | cons a t => simp

theorem splitOnChar_not_mem {c : Char} {s : Str} (h : c ∉ s) :
    splitOnChar c s = [s] := by
  induction s with
  | nil => rfl
  | cons x xs ih =>
    have hx : ¬(x = c) := fun hh => h (hh ▸ List.mem_cons_self x xs)
    have hxs : c ∉ xs := fun hh => h (List.mem_cons_of_mem x hh)
    simp only [splitOnChar, if_neg hx, ih hxs]

theorem splitOnChar_append_sep {c : Char} {a : Str} (h : c ∉ a) (b : Str) :
    splitOnChar c (a ++ c :: b) = a :: splitOnChar c b := by
  induction a with
  | nil => simp [splitOnChar]
  | cons x xs ih =>
    have hx : ¬(x = c) := fun hh => h (hh ▸ List.mem_cons_self x xs)
    have hxs : c ∉ xs := fun hh => h (List.mem_cons_of_mem x hh)
    have e : splitOnChar c (List.append xs (c :: b)) = xs :: splitOnChar c b := ih hxs
    simp only [List.cons_append, splitOnChar, if_neg hx, e]

theorem splitOnChar_length_append (c : Char) (a b : Str) :
    (splitOnChar c (a ++ c :: b)).length =
      (splitOnChar c a).length + (splitOnChar c b).length := by
  induction a with
  | nil =>
    have e := splitOnChar_append_sep (show c ∉ ([] : Str) by simp) b
    rw [List.nil_append] at e
    rw [List.nil_append, e]
    simp only [splitOnChar, List.length_cons, List.length_nil, List.length_singleton]
    omega
  | cons x xs ih =>
    by_cases hx : x = c
    · have hL : splitOnChar c ((x :: xs) ++ c :: b) =
          [] :: splitOnChar c (xs ++ c :: b) := by
        rw [List.cons_append]
        simp only [splitOnChar, if_pos hx]
      have hR : splitOnChar c (x :: xs) = [] :: splitOnChar c xs := by
        simp only [splitOnChar, if_pos hx]
      rw [hL, hR, List.length_cons, List.length_cons, ih]
      omega
    · cases h1 : splitOnChar c (xs ++ c :: b) with
      | nil => exact absurd h1 (splitOnChar_ne_nil c _)
      | cons hh tt =>
        cases h2 : splitOnChar c xs with
        | nil => exact absurd h2 (splitOnChar_ne_nil c xs)
        | cons hh2 tt2 =>
          have hL : splitOnChar c ((x :: xs) ++ c :: b) = (x :: hh) :: tt := by
            rw [List.cons_append]
            simp only [splitOnChar, if_neg hx]
            rw [h1]
          have hR : splitOnChar c (x :: xs) = (x :: hh2) :: tt2 := by
            simp only [splitOnChar, if_neg hx]
            rw [h2]
          rw [h1, h2] at ih
          rw [hL, hR]
          simp only [List.length_cons] at ih ⊢
          omega

theorem splitOnChar_length_pos (c : Char) (s : Str) :
    1 ≤ (splitOnChar c s).length := by
  cases h : splitOnChar c s with
  | nil => exact absurd h (splitOnChar_ne_nil c s)
  | cons a t => simp

/- ===================== joinSep lemmas ===================== -/

theorem not_mem_joinSep {c : Char} (hc : c ≠ dimensionSeparator)
    {l : List Str} (h : ∀ s ∈ l, c ∉ s) : c ∉ joinSep l := by
  induction l with
  | nil => simp [joinSep]
  | cons s rest ih =>
    cases rest with
    | nil => simpa [joinSep] using h s (List.mem_cons_self s [])
    | cons s2 rest2 =>
      simp only [joinSep, List.mem_append, List.mem_cons]
      rintro (hin | hsep | hin)
      · exact h s (List.mem_cons_self s _) hin
      · exact hc hsep
      · exact ih (fun t ht => h t (List.mem_cons_of_mem s ht)) hin

theorem joinSep_ne_nil {l : List Str} (hne : l ≠ [])
    (h : ∀ s ∈ l, s ≠ []) : joinSep l ≠ [] := by
  cases l with
  | nil => exact absurd rfl hne
  | cons s rest =>
    cases rest with
    | nil => simpa [joinSep] using h s (List.mem_cons_self s [])
    | cons s2 rest2 =>
      simp [joinSep]

theorem splitOnChar_joinSep_comma_free {l : List Str}
    (h : ∀ s ∈ l, dimensionSeparator ∉ s) (hne : l ≠ []) :
    splitOnChar dimensionSeparator (joinSep l) = l := by
  induction l with
  | nil => exact absurd rfl hne
  | cons s rest ih =>
    cases rest with
    | nil =>
      show splitOnChar dimensionSeparator (joinSep [s]) = [s]
      rw [show joinSep [s] = s from rfl]
      exact splitOnChar_not_mem (h s (List.mem_cons_self s []))
    | cons s2 rest2 =>
      show splitOnChar dimensionSeparator (s ++ dimensionSeparator :: joinSep (s2 :: rest2)) = _
      rw [splitOnChar_append_sep (h s (List.mem_cons_self s _)),
        ih (fun t ht => h t (List.mem_cons_of_mem s ht)) (by simp)]

theorem splitOnChar_joinSep_length_ge {l : List Str} (hne : l ≠ []) :
    l.length ≤ (splitOnChar dimensionSeparator (joinSep l)).length := by
  induction l with
  | nil => exact absurd rfl hne
  | cons s rest ih =>
    cases rest with
    | nil =>
      show 1 ≤ (splitOnChar dimensionSeparator (joinSep [s])).length
      exact splitOnChar_length_pos _ _
    | cons s2 rest2 =>
      show (s2 :: rest2).length + 1 ≤
        (splitOnChar dimensionSeparator (s ++ dimensionSeparator :: joinSep (s2 :: rest2))).length
      rw [splitOnChar_length_append]
      have h1 := splitOnChar_length_pos dimensionSeparator s
      have h2 := ih (by simp)
      omega

/- ===================== ConstructLabel split ===================== -/

theorem constructLabel_split (metric : Metric) (stat : Str)
    (h1 : labelSeparator ∉ metric.MetricName)
    (h2 : labelSeparator ∉ metric.Namespace)
    (h3 : labelSeparator ∉ stat)
    (hd : ∀ d ∈ metric.Dimensions,
      labelSeparator ∉ d.Name ∧ labelSeparator ∉ d.Value ∧ d.Name ≠ [] ∧ d.Value ≠ []) :
    splitOnChar labelSeparator (ConstructLabel metric stat) =
      if metric.Dimensions = [] then [metric.MetricName, metric.Namespace, stat]
      else [metric.MetricName, metric.Namespace, stat,
        dimNamesOf metric.Dimensions, dimValuesOf metric.Dimensions] := by
  have hsep : labelSeparator ≠ dimensionSeparator := by decide
  unfold ConstructLabel
  by_cases hdim : metric.Dimensions = []
  · rw [if_pos hdim, hdim]
    have hcond : ¬(dimNamesOf [] ≠ [] ∧ dimValuesOf [] ≠ []) := by
      simp [dimNamesOf, joinSep]
    rw [if_neg hcond]
    rw [splitOnChar_append_sep h1, splitOnChar_append_sep h2, splitOnChar_not_mem h3]
  · rw [if_neg hdim]
    have hnames : ∀ s ∈ metric.Dimensions.map Dimension.Name, labelSeparator ∉ s := by
      intro s hs
      obtain ⟨d, hdmem, rfl⟩ := List.mem_map.mp hs
      exact (hd d hdmem).1
    have hvalues : ∀ s ∈ metric.Dimensions.map Dimension.Value, labelSeparator ∉ s := by
      intro s hs
      obtain ⟨d, hdmem, rfl⟩ := List.mem_map.mp hs
      exact (hd d hdmem).2.1
    have hnN : ∀ s ∈ metric.Dimensions.map Dimension.Name, s ≠ [] := by
      intro s hs
      obtain ⟨d, hdmem, rfl⟩ := List.mem_map.mp hs
      exact (hd d hdmem).2.2.1
    have hnV : ∀ s ∈ metric.Dimensions.map Dimension.Value, s ≠ [] := by
      intro s hs
      obtain ⟨d, hdmem, rfl⟩ := List.mem_map.mp hs
      exact (hd d hdmem).2.2.2
    have hmapne : metric.Dimensions.map Dimension.Name ≠ [] := by
      simpa using hdim
    have hmapneV : metric.Dimensions.map Dimension.Value ≠ [] := by
      simpa using hdim
    have hdn : dimNamesOf metric.Dimensions ≠ [] :=
      joinSep_ne_nil hmapne hnN
    have hdv : dimValuesOf metric.Dimensions ≠ [] :=
      joinSep_ne_nil hmapneV hnV
    rw [if_pos ⟨hdn, hdv⟩]
    have hassoc :
        (metric.MetricName ++ labelSeparator :: (metric.Namespace ++ labelSeparator :: stat)) ++
            labelSeparator :: (dimNamesOf metric.Dimensions ++ labelSeparator :: dimValuesOf metric.Dimensions) =
          metric.MetricName ++ labelSeparator :: (metric.Namespace ++ labelSeparator ::
            (stat ++ labelSeparator :: (dimNamesOf metric.Dimensions ++ labelSeparator :: dimValuesOf metric.Dimensions))) := by
      simp
    have hdnm : labelSeparator ∉ dimNamesOf metric.Dimensions :=
      not_mem_joinSep hsep hnames
    have hdvm : labelSeparator ∉ dimValuesOf metric.Dimensions :=
      not_mem_joinSep hsep hvalues
    rw [hassoc, splitOnChar_append_sep h1, splitOnChar_append_sep h2,
      splitOnChar_append_sep h3,
      splitOnChar_append_sep hdnm,
      splitOnChar_not_mem hdvm]

/- ===================== C2: label round-trip ===================== -/

/-- C2 counterexample: a metric with a pipe character inside a dimension
name has a non-empty dimension list, yet its constructed label splits into
6 pipe-separated fields, not 5 — refuting the claim as stated ("for every
metric"). -/
theorem C2_label_roundtrip_counterexample :
    (Metric.mk (s2l "AWS/EC2") (s2l "CPUUtilization")
        [⟨s2l "a|b", s2l "v"⟩]).Dimensions ≠ [] ∧
    (splitOnChar labelSeparator
      (ConstructLabel
        (Metric.mk (s2l "AWS/EC2") (s2l "CPUUtilization") [⟨s2l "a|b", s2l "v"⟩])
        (s2l "avg"))).length = 6 := by
  constructor
  · decide
  · decide

/-- C2 (amended): for every metric whose name, namespace, statistic and
dimension names/values contain no pipe separator, and whose dimension names
and values are non-empty, the constructed label splits into exactly the 3
fields [metricName, namespace, statistic] when the dimension list is empty,
and into exactly the 5 fields [metricName, namespace, statistic,
comma-joined names, comma-joined values] (in the dimension list's original
order) when it is non-empty. -/
theorem C2_label_roundtrip (metric : Metric) (stat : Str)
    (h1 : labelSeparator ∉ metric.MetricName)
    (h2 : labelSeparator ∉ metric.Namespace)
    (h3 : labelSeparator ∉ stat)
    (hd : ∀ d ∈ metric.Dimensions,
      labelSeparator ∉ d.Name ∧ labelSeparator ∉ d.Value ∧ d.Name ≠ [] ∧ d.Value ≠ []) :
    (metric.Dimensions = [] →
      splitOnChar labelSeparator (ConstructLabel metric stat) =
        [metric.MetricName, metric.Namespace, stat]) ∧
    (metric.Dimensions ≠ [] →
      splitOnChar labelSeparator (ConstructLabel metric stat) =
        [metric.MetricName, metric.Namespace, stat,
          dimNamesOf metric.Dimensions, dimValuesOf metric.Dimensions]) := by
  have h := constructLabel_split metric stat h1 h2 h3 hd
  constructor
  · intro hdim; rw [h, if_pos hdim]
  · intro hdim; rw [h, if_neg hdim]

/-- C2 witness: the spec's own example — name "CPUUtilization", namespace
"AWS/EC2", statistic "avg", dimensions [("InstanceId","i-1")] — decodes to
the five original fields. -/
theorem C2_label_roundtrip_witness :
    splitOnChar labelSeparator
      (ConstructLabel
        (Metric.mk (s2l "AWS/EC2") (s2l "CPUUtilization") [⟨s2l "InstanceId", s2l "i-1"⟩])
        (s2l "avg")) =
      [s2l "CPUUtilization", s2l "AWS/EC2", s2l "avg", s2l "InstanceId", s2l "i-1"] := by
  have h := (C2_label_roundtrip
    (Metric.mk (s2l "AWS/EC2") (s2l "CPUUtilization") [⟨s2l "InstanceId", s2l "i-1"⟩])
    (s2l "avg") (by decide) (by decide) (by decide) (by decide)).2 (by decide)
  rw [h]
  decide

/- ===================== decimal-digit lemmas ===================== -/

theorem digitChar_isDigit : ∀ d : Nat, d < 10 → (Nat.digitChar d).isDigit = true := by
  decide

theorem digitChar_inj :
    ∀ a : Nat, a < 10 → ∀ b : Nat, b < 10 →
      Nat.digitChar a = Nat.digitChar b → a = b := by
  decide

theorem digitsND_lt {n : Nat} (h : n < 10) : digitsND n = [Nat.digitChar n] := by
  conv_lhs => rw [digitsND]
  rw [dif_pos h]

theorem digitsND_ge {n : Nat} (h : ¬n < 10) :
    digitsND n = digitsND (n / 10) ++ [Nat.digitChar (n % 10)] := by
  conv_lhs => rw [digitsND]
  rw [dif_neg h]

theorem natToStrAux_eq_digitsND :
    ∀ (fuel n : Nat) (acc : Str), n < fuel →
      natToStrAux fuel n acc = digitsND n ++ acc := by
  intro fuel
  induction fuel with
  | zero => intro n acc h; exact absurd h (Nat.not_lt_zero n)
  | succ fuel ih =>
    intro n acc h
    by_cases h10 : n < 10
    · have hdiv : n / 10 = 0 := Nat.div_eq_of_lt h10
      have hmod : n % 10 = n := Nat.mod_eq_of_lt h10
      simp only [natToStrAux, hdiv, if_pos rfl, hmod]
      rw [digitsND_lt h10]
      rfl
    · have hdiv : ¬(n / 10 = 0) := by
        intro hz
        exact h10 (by omega)
      have hlt : n / 10 < fuel := by
        have h1 : n / 10 < n := Nat.div_lt_self (by omega) (by omega)
        omega
      simp only [natToStrAux, if_neg hdiv]
      rw [ih (n / 10) (Nat.digitChar (n % 10) :: acc) hlt]
      rw [digitsND_ge h10]
      simp

theorem natToStr_eq_digitsND (n : Nat) : natToStr n = digitsND n := by
  unfold natToStr
  rw [natToStrAux_eq_digitsND (n + 1) n [] (Nat.lt_succ_self n)]
  simp

theorem digitsND_ne_nil (n : Nat) : digitsND n ≠ [] := by
  by_cases h : n < 10
  · rw [digitsND_lt h]; simp
  · rw [digitsND_ge h]; simp

theorem digitsND_all_digits :
    ∀ n : Nat, ∀ c ∈ digitsND n, c.isDigit = true := by
  intro n
  induction n using Nat.strong_induction_on with
  | _ n ih =>
    intro c hc
    by_cases h : n < 10
    · rw [digitsND_lt h, List.mem_singleton] at hc
      subst hc
      exact digitChar_isDigit n h
    · rw [digitsND_ge h] at hc
      rcases List.mem_append.mp hc with hc | hc
      · exact ih (n / 10) (Nat.div_lt_self (by omega) (by omega)) c hc
      · rw [List.mem_singleton] at hc
        subst hc
        exact digitChar_isDigit (n % 10) (Nat.mod_lt n (by omega))

theorem append_singleton_inj {α : Type} {xs ys : List α} {a b : α}
    (h : xs ++ [a] = ys ++ [b]) : xs = ys ∧ a = b := by
  have h2 := congrArg List.reverse h
  simp only [List.reverse_append, List.reverse_singleton, List.singleton_append] at h2
  obtain ⟨hab, hr⟩ := List.cons.inj h2
  constructor
  · have h3 := congrArg List.reverse hr
    simpa using h3
  · exact hab

theorem digitsND_inj : ∀ m n : Nat, digitsND m = digitsND n → m = n := by
  intro m
  induction m using Nat.strong_induction_on with
  | _ m ih =>
    intro n h
    by_cases hm : m < 10
    · by_cases hn : n < 10
      · rw [digitsND_lt hm, digitsND_lt hn] at h
        have := (List.cons.inj h).1
        exact digitChar_inj m hm n hn this
      · rw [digitsND_lt hm, digitsND_ge hn] at h
        have hlen := congrArg List.length h
        simp only [List.length_singleton, List.length_append, List.length_cons] at hlen
        have hne := digitsND_ne_nil (n / 10)
        have : 1 ≤ (digitsND (n / 10)).length := by
          cases hd : digitsND (n / 10) with
          | nil => exact absurd hd hne
          | cons a t => simp
        omega
    · by_cases hn : n < 10
      · rw [digitsND_ge hm, digitsND_lt hn] at h
        have hlen := congrArg List.length h
        simp only [List.length_singleton, List.length_append, List.length_cons] at hlen
        have hne := digitsND_ne_nil (m / 10)
        have : 1 ≤ (digitsND (m / 10)).length := by
          cases hd : digitsND (m / 10) with
          | nil => exact absurd hd hne
          | cons a t => simp
        omega
      · rw [digitsND_ge hm, digitsND_ge hn] at h
        obtain ⟨hinit, hlast⟩ := append_singleton_inj h
        have hdiv : m / 10 = n / 10 :=
          ih (m / 10) (Nat.div_lt_self (by omega) (by omega)) (n / 10) hinit
        have hmod : m % 10 = n % 10 :=
          digitChar_inj (m % 10) (Nat.mod_lt m (by omega)) (n % 10)
            (Nat.mod_lt n (by omega)) hlast
        omega

theorem natToStr_inj {m n : Nat} (h : natToStr m = natToStr n) : m = n := by
  rw [natToStr_eq_digitsND, natToStr_eq_digitsND] at h
  exact digitsND_inj m n h

theorem natToStr_all_digits (n : Nat) : ∀ c ∈ natToStr n, c.isDigit = true := by
  rw [natToStr_eq_digitsND]
  exact digitsND_all_digits n

theorem digit_block_inj :
    ∀ (a : Str), (∀ ch ∈ a, ch.isDigit = true) →
    ∀ (b : Str), (∀ ch ∈ b, ch.isDigit = true) →
    ∀ (x y : Str),
      (∀ ch, x.head? = some ch → ch.isDigit = false) →
      (∀ ch, y.head? = some ch → ch.isDigit = false) →
      a ++ x = b ++ y → a = b ∧ x = y := by
  intro a
  induction a with
  | nil =>
    intro _ b hb x y hx hy h
    cases b with
    | nil => exact ⟨rfl, h⟩
    | cons c b' =>
      rw [List.nil_append, List.cons_append] at h
      have hh : x.head? = some c := by rw [h]; rfl
      have h1 := hx c hh
      have h2 := hb c (List.mem_cons_self c b')
      rw [h1] at h2
      exact absurd h2 (by simp)
  | cons c a' iha =>
    intro ha b hb x y hx hy h
    cases b with
    | nil =>
      rw [List.nil_append, List.cons_append] at h
      have hh : y.head? = some c := by rw [← h]; rfl
      have h1 := hy c hh
      have h2 := ha c (List.mem_cons_self c a')
      rw [h1] at h2
      exact absurd h2 (by simp)
    | cons c' b' =>
      rw [List.cons_append, List.cons_append] at h
      obtain ⟨hc, ht⟩ := List.cons.inj h
      subst hc
      obtain ⟨h1, h2⟩ := iha (fun ch hch => ha ch (List.mem_cons_of_mem c hch)) b'
        (fun ch hch => hb ch (List.mem_cons_of_mem c hch)) x y hx hy ht
      exact ⟨by rw [h1], h2⟩

theorem queryId_inj {i1 j1 i2 j2 : Nat} (h : queryId i1 j1 = queryId i2 j2) :
    i1 = i2 ∧ j1 = j2 := by
  unfold queryId at h
  have hcw : s2l "cw" = ['c', 'w'] := rfl
  have hst : s2l "stats" = ['s', 't', 'a', 't', 's'] := rfl
  rw [hcw, hst] at h
  simp only [List.append_assoc, List.cons_append, List.nil_append, List.cons.injEq,
    true_and] at h
  have hblock := digit_block_inj (natToStr i1) (natToStr_all_digits i1)
    (natToStr i2) (natToStr_all_digits i2)
    ('s' :: 't' :: 'a' :: 't' :: 's' :: natToStr j1)
    ('s' :: 't' :: 'a' :: 't' :: 's' :: natToStr j2)
    (by
      intro ch hch
      simp only [List.head?_cons, Option.some.injEq] at hch
      rw [← hch]
      decide)
    (by
      intro ch hch
      simp only [List.head?_cons, Option.some.injEq] at hch
      rw [← hch]
      decide) h
  obtain ⟨hi, hj⟩ := hblock
  refine ⟨natToStr_inj hi, ?_⟩
  simp only [List.cons.injEq, true_and] at hj
  exact natToStr_inj hj

/- ===================== C8: query-id uniqueness ===================== -/

theorem mem_statQueriesAux {i periodSec : Nat} {lm : MetricsWithStatistics}
    {q : MetricDataQuery} :
    ∀ {j : Nat} {stats : List Str}, q ∈ statQueriesAux i lm periodSec j stats →
      ∃ j' ≥ j, q.Id = queryId i j' := by
  intro j stats
  induction stats generalizing j with
  | nil => intro h; exact absurd h (List.not_mem_nil q)
  | cons s stats ih =>
    intro h
    rcases List.mem_cons.mp h with rfl | h
    · exact ⟨j, le_refl j, rfl⟩
    · obtain ⟨j', hj', hid⟩ := ih h
      exact ⟨j', by omega, hid⟩

theorem pairwise_statQueriesAux {i periodSec : Nat} {lm : MetricsWithStatistics} :
    ∀ {j : Nat} {stats : List Str},
      (statQueriesAux i lm periodSec j stats).Pairwise (fun q1 q2 => q1.Id ≠ q2.Id) := by
  intro j stats
  induction stats generalizing j with
  | nil => exact List.Pairwise.nil
  | cons s stats ih =>
    refine List.Pairwise.cons ?_ ih
    intro q hq heq
    obtain ⟨j', hj', hid⟩ := mem_statQueriesAux hq
    rw [hid] at heq
    have := (queryId_inj heq).2
    omega

theorem mem_createQueriesAux {periodSec : Nat} {q : MetricDataQuery} :
    ∀ {i : Nat} {l : List MetricsWithStatistics}, q ∈ createQueriesAux periodSec i l →
      ∃ i' ≥ i, ∃ j', q.Id = queryId i' j' := by
  intro i l
  induction l generalizing i with
  | nil => intro h; exact absurd h (List.not_mem_nil q)
  | cons lm l ih =>
    intro h
    rcases List.mem_append.mp h with h | h
    · obtain ⟨j', _, hid⟩ := mem_statQueriesAux h
      exact ⟨i, le_refl i, j', hid⟩
    · obtain ⟨i', hi', j', hid⟩ := ih h
      exact ⟨i', by omega, j', hid⟩

theorem pairwise_createQueriesAux {periodSec : Nat} :
    ∀ {i : Nat} {l : List MetricsWithStatistics},
      (createQueriesAux periodSec i l).Pairwise (fun q1 q2 => q1.Id ≠ q2.Id) := by
  intro i l
  induction l generalizing i with
  | nil => exact List.Pairwise.nil
  | cons lm l ih =>
    rw [show createQueriesAux periodSec i (lm :: l) =
      statQueriesAux i lm periodSec 0 lm.Statistic ++ createQueriesAux periodSec (i + 1) l
      from rfl]
    rw [List.pairwise_append]
    refine ⟨pairwise_statQueriesAux, ih, ?_⟩
    intro q1 h1 q2 h2 heq
    obtain ⟨j1, _, hid1⟩ := mem_statQueriesAux h1
    obtain ⟨i2, hi2, j2, hid2⟩ := mem_createQueriesAux h2
    rw [hid1, hid2] at heq
    have := (queryId_inj heq).1
    omega

/-- C8: the identifiers `"cw" + i + "stats" + j` that
`CreateMetricDataQueries` assigns are pairwise distinct within the returned
batch, for every input list; and distinct (metric index, statistic index)
pairs always yield distinct id strings. -/
theorem C8_query_ids_unique :
    (∀ (listMetricsTotal : List MetricsWithStatistics) (periodSec : Nat),
      (CreateMetricDataQueries listMetricsTotal periodSec).Pairwise
        (fun q1 q2 => q1.Id ≠ q2.Id)) ∧
    (∀ i1 j1 i2 j2 : Nat, (i1, j1) ≠ (i2, j2) → queryId i1 j1 ≠ queryId i2 j2) := by
  constructor
  · intro l periodSec
    exact pairwise_createQueriesAux
  · intro i1 j1 i2 j2 hne heq
    obtain ⟨hi, hj⟩ := queryId_inj heq
    exact hne (by rw [hi, hj])

/-- C8 witness: distinct index pairs (0,1) and (1,0) receive distinct
identifiers. -/
theorem C8_query_ids_unique_witness : queryId 0 1 ≠ queryId 1 0 :=
  C8_query_ids_unique.2 0 1 1 0 (by decide)

/- ===================== C5 / C7: config routing ===================== -/

theorem withDefaultStats_fields (config : Config) :
    (withDefaultStats config).MetricName = config.MetricName ∧
    (withDefaultStats config).Dimensions = config.Dimensions ∧
    (withDefaultStats config).Namespace = config.Namespace ∧
    (withDefaultStats config).ResourceType = config.ResourceType := by
  unfold withDefaultStats
  by_cases h : config.Statistic = []
  · rw [if_pos h]; exact ⟨rfl, rfl, rfl, rfl⟩
  · rw [if_neg h]; exact ⟨rfl, rfl, rfl, rfl⟩

/-- C5: `readCloudwatchConfig` routes a configuration entry to exact mode
iff it has both metric names and dimensions and no wildcard dimension
value; exact mode appends one `MetricsWithStatistics` per configured metric
name (with the entry's namespace, dimensions and statistics) and records
the global tag filters under the resource type exactly when one is set,
leaving the namespace map untouched; otherwise the step appends exactly one
`NamespaceDetail` to that namespace's list, preserving every other
namespace's list and the previously accumulated specs of the same
namespace (no merging). -/
theorem C5_config_routing (tagsFilter : List Tag) (st : ReadState) (config : Config) :
    (exactModeCond config →
      readConfigStep tagsFilter st config =
        { st with
          metricsWithStatsTotal := st.metricsWithStatsTotal ++
            config.MetricName.map (fun mn =>
              { CloudwatchMetric :=
                  { Namespace := config.Namespace
                    MetricName := mn
                    Dimensions := config.Dimensions }
                Statistic := (withDefaultStats config).Statistic })
          resourceTypesWithTags :=
            if config.ResourceType ≠ [] then
              insertA st.resourceTypesWithTags config.ResourceType tagsFilter
            else st.resourceTypesWithTags }) ∧
    (¬exactModeCond config →
      (readConfigStep tagsFilter st config).metricsWithStatsTotal =
        st.metricsWithStatsTotal ∧
      (readConfigStep tagsFilter st config).resourceTypesWithTags =
        st.resourceTypesWithTags ∧
      lookupA (readConfigStep tagsFilter st config).namespaceDetailTotal
          config.Namespace =
        some ((lookupA st.namespaceDetailTotal config.Namespace).getD [] ++
          [{ ResourceTypeFilter := config.ResourceType
             Names := config.MetricName
             Tags := tagsFilter
             Statistics := (withDefaultStats config).Statistic
             Dimensions := config.Dimensions }]) ∧
      (∀ ns, ns ≠ config.Namespace →
        lookupA (readConfigStep tagsFilter st config).namespaceDetailTotal ns =
          lookupA st.namespaceDetailTotal ns)) := by
  obtain ⟨hf1, hf2, hf3, hf4⟩ := withDefaultStats_fields config
  constructor
  · intro h
    obtain ⟨h1, h2, h3⟩ := h
    have hc : (withDefaultStats config).MetricName ≠ [] ∧
        (withDefaultStats config).Dimensions ≠ [] ∧
        ConfigDimensionValueContainsWildcard (withDefaultStats config).Dimensions = false := by
      rw [hf1, hf2]
      exact ⟨h1, h2, h3⟩
    unfold readConfigStep
    rw [if_pos hc, hf1, hf2, hf3, hf4]
  · intro h
    have hc : ¬((withDefaultStats config).MetricName ≠ [] ∧
        (withDefaultStats config).Dimensions ≠ [] ∧
        ConfigDimensionValueContainsWildcard (withDefaultStats config).Dimensions = false) := by
      rw [hf1, hf2]
      exact h
    unfold readConfigStep
    rw [if_neg hc, hf1, hf2, hf3, hf4]
    refine ⟨rfl, rfl, ?_, ?_⟩
    · rw [lookupA_insertA, if_pos rfl]
    · intro ns hns
      rw [lookupA_insertA, if_neg hns]

/-- C5 witness: a concrete exact-mode entry (names and dimensions given, no
wildcard) contributes one `MetricsWithStatistics` for its single metric
name, and a concrete discovery entry (wildcard dimension) contributes one
`NamespaceDetail`. -/
theorem C5_config_routing_witness :
    readConfigStep [] ⟨[], [], []⟩
        ⟨s2l "AWS/EC2", [s2l "CPUUtilization"], [⟨s2l "InstanceId", s2l "i-123"⟩],
          [], [s2l "Average"]⟩ =
      { metricsWithStatsTotal :=
          [{ CloudwatchMetric :=
               { Namespace := s2l "AWS/EC2"
                 MetricName := s2l "CPUUtilization"
                 Dimensions := [⟨s2l "InstanceId", s2l "i-123"⟩] }
             Statistic := [s2l "Average"] }]
        resourceTypesWithTags := []
        namespaceDetailTotal := [] } := by
  have h := (C5_config_routing [] ⟨[], [], []⟩
    ⟨s2l "AWS/EC2", [s2l "CPUUtilization"], [⟨s2l "InstanceId", s2l "i-123"⟩],
      [], [s2l "Average"]⟩).1 (by decide)
  rw [h]
  decide

/-- C7: an entry whose statistics list is empty is processed exactly like
the same entry with the default statistic set substituted, and every
`MetricsWithStatistics` or `NamespaceDetail` it contributes carries exactly
the default statistics {Average, Maximum, Minimum, Sum, SampleCount}. -/
theorem C7_default_statistics (tagsFilter : List Tag) (st : ReadState)
    (config : Config) (h : config.Statistic = []) :
    readConfigStep tagsFilter st config =
      readConfigStep tagsFilter st { config with Statistic := defaultStatistics } ∧
    (∀ mws ∈ (readConfigStep tagsFilter st config).metricsWithStatsTotal,
      mws ∈ st.metricsWithStatsTotal ∨ mws.Statistic = defaultStatistics) ∧
    (∀ ns ds, lookupA (readConfigStep tagsFilter st config).namespaceDetailTotal ns =
        some ds →
      ∀ d ∈ ds, d ∈ (lookupA st.namespaceDetailTotal ns).getD [] ∨
        d.Statistics = defaultStatistics) := by
  have hwds : withDefaultStats config = { config with Statistic := defaultStatistics } := by
    unfold withDefaultStats
    rw [if_pos h]
  have hwds2 : withDefaultStats { config with Statistic := defaultStatistics } =
      { config with Statistic := defaultStatistics } := by
    unfold withDefaultStats
    rw [if_neg (by simp [defaultStatistics])]
  have hstep : readConfigStep tagsFilter st config =
      readConfigStep tagsFilter st { config with Statistic := defaultStatistics } := by
    unfold readConfigStep
    rw [hwds, hwds2]
  refine ⟨hstep, ?_, ?_⟩
  · intro mws hmws
    unfold readConfigStep at hmws
    rw [hwds] at hmws
    by_cases hc : ({ config with Statistic := defaultStatistics } : Config).MetricName ≠ [] ∧
        ({ config with Statistic := defaultStatistics } : Config).Dimensions ≠ [] ∧
        ConfigDimensionValueContainsWildcard
          ({ config with Statistic := defaultStatistics } : Config).Dimensions = false
    · rw [if_pos hc] at hmws
      simp only at hmws
      rcases List.mem_append.mp hmws with hmem | hmem
      · left; exact hmem
      · right
        obtain ⟨mn, _, rfl⟩ := List.mem_map.mp hmem
        rfl
    · rw [if_neg hc] at hmws
      left; exact hmws
  · intro ns ds hds d hd
    unfold readConfigStep at hds
    rw [hwds] at hds
    by_cases hc : ({ config with Statistic := defaultStatistics } : Config).MetricName ≠ [] ∧
        ({ config with Statistic := defaultStatistics } : Config).Dimensions ≠ [] ∧
        ConfigDimensionValueContainsWildcard
          ({ config with Statistic := defaultStatistics } : Config).Dimensions = false
    · rw [if_pos hc] at hds
      simp only at hds
      left
      rw [hds]
      exact hd
    · rw [if_neg hc] at hds
      simp only at hds
      by_cases hns : ns = ({ config with Statistic := defaultStatistics } : Config).Namespace
      · rw [hns, lookupA_insertA, if_pos rfl] at hds
        obtain rfl := Option.some.inj hds
        rcases List.mem_append.mp hd with hmem | hmem
        · left
          rw [← hns] at hmem
          exact hmem
        · right
          rw [List.mem_singleton] at hmem
          rw [hmem]
      · rw [lookupA_insertA, if_neg hns] at hds
        left
        rw [hds]
        exact hd

/-- C7 witness: the one metric request a concrete entry with no statistics
contributes carries the five default statistics. -/
theorem C7_default_statistics_witness :
    ({ CloudwatchMetric :=
         { Namespace := s2l "AWS/EC2"
           MetricName := s2l "CPUUtilization"
           Dimensions := [⟨s2l "InstanceId", s2l "i-123"⟩] }
       Statistic := defaultStatistics } : MetricsWithStatistics) ∈
        ([] : List MetricsWithStatistics) ∨
    ({ CloudwatchMetric :=
         { Namespace := s2l "AWS/EC2"
           MetricName := s2l "CPUUtilization"
           Dimensions := [⟨s2l "InstanceId", s2l "i-123"⟩] }
       Statistic := defaultStatistics } : MetricsWithStatistics).Statistic =
      defaultStatistics :=
  (C7_default_statistics [] ⟨[], [], []⟩
    ⟨s2l "AWS/EC2", [s2l "CPUUtilization"], [⟨s2l "InstanceId", s2l "i-123"⟩],
      [], []⟩ rfl).2.1
    { CloudwatchMetric :=
        { Namespace := s2l "AWS/EC2"
          MetricName := s2l "CPUUtilization"
          Dimensions := [⟨s2l "InstanceId", s2l "i-123"⟩] }
      Statistic := defaultStatistics } (by decide)

/- ===================== C10: root-field insertion safety ===================== -/

theorem putDims_some :
    ∀ (names values : List Str) (fs : AList FieldVal),
      names.length ≤ values.length →
      ∃ fs', putDims fs names values = some fs' ∧
        (∀ n ∈ names, (lookupA fs' (s2l "aws.dimensions." ++ n)).isSome = true) ∧
        (∀ k, (lookupA fs k).isSome = true → (lookupA fs' k).isSome = true) := by
  intro names
  induction names with
  | nil =>
    intro values fs _
    exact ⟨fs, rfl, by simp, fun k h => h⟩
  | cons n names ih =>
    intro values fs hlen
    cases values with
    | nil => simp at hlen
    | cons v vs =>
      have hlen' : names.length ≤ vs.length := by simpa using hlen
      obtain ⟨fs', hpd, hall, hpres⟩ :=
        ih vs (putField fs (s2l "aws.dimensions." ++ n) (.str v)) hlen'
      refine ⟨fs', hpd, ?_, ?_⟩
      · intro n' hn'
        rcases List.mem_cons.mp hn' with rfl | hn'
        · apply hpres
          unfold putField
          rw [lookupA_insertA, if_pos rfl]
          rfl
        · exact hall n' hn'
      · intro k hk
        apply hpres
        unfold putField
        rw [lookupA_insertA]
        by_cases hkk : k = s2l "aws.dimensions." ++ n
        · rw [if_pos hkk]; rfl
        · rw [if_neg hkk]; exact hk

/-- C10: on a 5-field label whose names field splits into no more comma
parts than its values field, `InsertRootFields` never takes the
out-of-range branch and inserts one `aws.dimensions.<name>` field per name
part; the precondition holds for the 5-field label `ConstructLabel`
produces from non-empty separator-free dimensions with comma-free names;
and a label whose names field splits into more parts than its values field
takes the out-of-range branch. -/
theorem C10_insert_root_fields_safety :
    (∀ (event : Event) (v : Int) (mn ns st dn dv : Str),
      (splitOnChar dimensionSeparator dn).length ≤
        (splitOnChar dimensionSeparator dv).length →
      ∃ ev', InsertRootFields event v [mn, ns, st, dn, dv] = some ev' ∧
        ∀ n ∈ splitOnChar dimensionSeparator dn,
          (lookupA ev'.RootFields (s2l "aws.dimensions." ++ n)).isSome = true) ∧
    (∀ (metric : Metric) (stat : Str),
      labelSeparator ∉ metric.MetricName →
      labelSeparator ∉ metric.Namespace →
      labelSeparator ∉ stat →
      (∀ d ∈ metric.Dimensions,
        labelSeparator ∉ d.Name ∧ labelSeparator ∉ d.Value ∧ d.Name ≠ [] ∧ d.Value ≠ []) →
      metric.Dimensions ≠ [] →
      (∀ d ∈ metric.Dimensions, dimensionSeparator ∉ d.Name) →
      splitOnChar labelSeparator (ConstructLabel metric stat) =
        [metric.MetricName, metric.Namespace, stat,
          dimNamesOf metric.Dimensions, dimValuesOf metric.Dimensions] ∧
      (splitOnChar dimensionSeparator (dimNamesOf metric.Dimensions)).length ≤
        (splitOnChar dimensionSeparator (dimValuesOf metric.Dimensions)).length) ∧
    ((splitOnChar dimensionSeparator (s2l "v")).length <
        (splitOnChar dimensionSeparator (s2l "a,b")).length ∧
      InsertRootFields ⟨0, []⟩ 0
        [s2l "m", s2l "AWS/EC2", s2l "avg", s2l "a,b", s2l "v"] = none) := by
  refine ⟨?_, ?_, by decide, by decide⟩
  · intro event v mn ns st dn dv hlen
    obtain ⟨fs', hpd, hall, _⟩ := putDims_some
      (splitOnChar dimensionSeparator dn) (splitOnChar dimensionSeparator dv)
      (putField (putField event.RootFields
        (s2l "aws." ++ StripNamespace ns ++ s2l ".metrics." ++
          DeDot mn ++ '.' :: (StatisticLookup st).1) (.num v))
        (s2l "aws.cloudwatch.namespace") (.str ns)) hlen
    refine ⟨{ event with RootFields := fs' }, ?_, hall⟩
    simp only [InsertRootFields, GenerateFieldName, namespaceIdx, statisticIdx,
      metricNameIdx, identifierNameIdx, identifierValueIdx,
      List.getElem?_cons_zero, List.getElem?_cons_succ, List.length_cons,
      List.length_nil]
    rw [if_neg (by omega)]
    rw [hpd]
  · intro metric stat h1 h2 h3 hd hne hcomma
    have hsplit := constructLabel_split metric stat h1 h2 h3 hd
    rw [if_neg hne] at hsplit
    refine ⟨hsplit, ?_⟩
    have hnames : ∀ s ∈ metric.Dimensions.map Dimension.Name, dimensionSeparator ∉ s := by
      intro s hs
      obtain ⟨d, hdm, rfl⟩ := List.mem_map.mp hs
      exact hcomma d hdm
    have hmapne : metric.Dimensions.map Dimension.Name ≠ [] := by simpa using hne
    have hmapneV : metric.Dimensions.map Dimension.Value ≠ [] := by simpa using hne
    have hnameEq : splitOnChar dimensionSeparator (dimNamesOf metric.Dimensions) =
        metric.Dimensions.map Dimension.Name :=
      splitOnChar_joinSep_comma_free hnames hmapne
    have hvalGe := splitOnChar_joinSep_length_ge hmapneV
    rw [hnameEq]
    have hlen1 : (metric.Dimensions.map Dimension.Name).length = metric.Dimensions.length :=
      List.length_map _ _
    have hlen2 : (metric.Dimensions.map Dimension.Value).length = metric.Dimensions.length :=
      List.length_map _ _
    unfold dimValuesOf
    omega

/-- C10 witness: a concrete in-range label round trip — the label built
from one comma-free dimension is processed without the out-of-range branch
and carries its `aws.dimensions.InstanceId` field. -/
theorem C10_insert_root_fields_safety_witness :
    ∃ ev', InsertRootFields ⟨0, []⟩ 7
        [s2l "CPUUtilization", s2l "AWS/EC2", s2l "avg", s2l "InstanceId", s2l "i-1"] =
        some ev' ∧
      ∀ n ∈ splitOnChar dimensionSeparator (s2l "InstanceId"),
        (lookupA ev'.RootFields (s2l "aws.dimensions." ++ n)).isSome = true :=
  C10_insert_root_fields_safety.1 ⟨0, []⟩ 7
    (s2l "CPUUtilization") (s2l "AWS/EC2") (s2l "avg") (s2l "InstanceId") (s2l "i-1")
    (by decide)

/- ===================== C9: tag insertion ===================== -/

theorem lookupA_updateEventFields (events : AList Event) (k k' : Str)
    (f : AList FieldVal → AList FieldVal) :
    lookupA (updateEventFields events k f) k' =
      if k' = k then
        (lookupA events k).map (fun ev => { ev with RootFields := f ev.RootFields })
      else lookupA events k' := by
  induction events with
  | nil =>
    by_cases hk : k' = k
    · simp [updateEventFields, lookupA, hk]
    · simp [updateEventFields, lookupA, hk]
  | cons p events ih =>
    by_cases hp : p.1 = k
    · by_cases hk : k' = k
      · have hpk' : p.1 = k' := by rw [hp, hk]
        simp only [updateEventFields, List.map_cons, if_pos hp, lookupA,
          if_pos hpk', if_pos hk, if_pos hp, Option.map_some']
      · have hpk' : ¬(p.1 = k') := by rw [hp]; exact fun h => hk h.symm
        simp only [updateEventFields, List.map_cons, if_pos hp, lookupA,
          if_neg hpk', if_neg hk] at ih ⊢
        exact ih
    · by_cases hpk' : p.1 = k'
      · have hk : ¬(k' = k) := by rw [← hpk']; exact fun h => hp h
        simp only [updateEventFields, List.map_cons, if_neg hp, lookupA,
          if_pos hpk', if_neg hk]
      · simp only [updateEventFields, List.map_cons, if_neg hp, lookupA,
          if_neg hpk'] at ih ⊢
        exact ih

theorem updateEventFields_id (events : AList Event) (k : Str) :
    updateEventFields events k (fun fs => fs) = events := by
  unfold updateEventFields
  induction events with
  | nil => rfl
  | cons p events ih =>
    rw [List.map_cons, ih]
    by_cases hp : p.1 = k
    · rw [if_pos hp]
    · rw [if_neg hp]

theorem updateEventFields_comp (events : AList Event) (k : Str)
    (f g : AList FieldVal → AList FieldVal) :
    updateEventFields (updateEventFields events k f) k g =
      updateEventFields events k (fun fs => g (f fs)) := by
  unfold updateEventFields
  rw [List.map_map]
  apply List.map_congr_left
  intro p _
  by_cases hp : p.1 = k
  · simp [hp]
  · simp [hp]

theorem insertTags_step_eq (findShortIdFromARN : Str → Option Str)
    (resourceTagMap : AList (List Tag)) (identifier : Str)
    (events : AList Event) (v : Str) :
    (let tags := effectiveTags findShortIdFromARN resourceTagMap v
     if tags.length ≠ 0 then
       updateEventFields events identifier (fun fs => putTagFields fs tags)
     else events) =
    updateEventFields events identifier
      (fun fs => putTagFields fs (effectiveTags findShortIdFromARN resourceTagMap v)) := by
  by_cases h : (effectiveTags findShortIdFromARN resourceTagMap v).length ≠ 0
  · rw [if_pos h]
  · rw [if_neg h]
    push_neg at h
    have htags : effectiveTags findShortIdFromARN resourceTagMap v = [] :=
      List.length_eq_zero.mp h
    rw [htags]
    exact (updateEventFields_id events identifier).symm

theorem insertTags_foldl (findShortIdFromARN : Str → Option Str)
    (resourceTagMap : AList (List Tag)) (identifier : Str) :
    ∀ (subs : List Str) (events : AList Event),
      subs.foldl
        (fun events v =>
          let tags := effectiveTags findShortIdFromARN resourceTagMap v
          if tags.length ≠ 0 then
            updateEventFields events identifier (fun fs => putTagFields fs tags)
          else events)
        events =
      updateEventFields events identifier
        (fun fs => putTagFields fs
          ((subs.map (effectiveTags findShortIdFromARN resourceTagMap)).flatten)) := by
  intro subs
  induction subs with
  | nil =>
    intro events
    exact (updateEventFields_id events identifier).symm
  | cons v subs ih =>
    intro events
    rw [List.foldl_cons, insertTags_step_eq, ih, updateEventFields_comp]
    have hfun : (fun fs => putTagFields
        (putTagFields fs (effectiveTags findShortIdFromARN resourceTagMap v))
        ((subs.map (effectiveTags findShortIdFromARN resourceTagMap)).flatten)) =
        (fun fs => putTagFields fs
          (((v :: subs).map (effectiveTags findShortIdFromARN resourceTagMap)).flatten)) := by
      funext fs
      rw [List.map_cons, List.flatten_cons]
      unfold putTagFields
      rw [List.foldl_append]
    rw [hfun]

theorem insertTags_eq (findShortIdFromARN : Str → Option Str)
    (events : AList Event) (identifier : Str) (resourceTagMap : AList (List Tag)) :
    InsertTags findShortIdFromARN events identifier resourceTagMap =
      updateEventFields events identifier
        (fun fs => putTagFields fs
          (collectedTags findShortIdFromARN resourceTagMap identifier)) := by
  unfold InsertTags collectedTags
  exact insertTags_foldl findShortIdFromARN resourceTagMap identifier
    (splitOnChar dimensionSeparator identifier) events

theorem putTagFields_lookup :
    ∀ (ts : List Tag) (fs : AList FieldVal) (k : Str),
      lookupA (putTagFields fs ts) k =
        match lastTagFor ts k with
        | some t => some (.str t.Value)
        | none => lookupA fs k := by
  intro ts
  induction ts with
  | nil => intro fs k; rfl
  | cons t ts ih =>
    intro fs k
    have hstep : putTagFields fs (t :: ts) =
        putTagFields (putField fs (s2l "aws.tags." ++ DeDot t.Key) (.str t.Value)) ts := rfl
    rw [hstep, ih]
    cases hlast : lastTagFor ts k with
    | some t' => simp only [lastTagFor, hlast]
    | none =>
      simp only [lastTagFor, hlast]
      unfold putField
      rw [lookupA_insertA]
      by_cases hk : k = s2l "aws.tags." ++ DeDot t.Key
      · rw [if_pos hk, if_pos (by rw [hk] : s2l "aws.tags." ++ DeDot t.Key = k)]
      · rw [if_neg hk, if_neg (fun h => hk h.symm)]

theorem lastTagFor_mem {ts : List Tag} {k : Str} {t' : Tag}
    (h : lastTagFor ts k = some t') :
    t' ∈ ts ∧ s2l "aws.tags." ++ DeDot t'.Key = k := by
  induction ts with
  | nil => exact absurd h (by simp [lastTagFor])
  | cons t ts ih =>
    unfold lastTagFor at h
    cases hlast : lastTagFor ts k with
    | some u =>
      rw [hlast] at h
      obtain rfl := Option.some.inj h
      obtain ⟨hmem, hkey⟩ := ih hlast
      exact ⟨List.mem_cons_of_mem t hmem, hkey⟩
    | none =>
      rw [hlast] at h
      by_cases hcond : s2l "aws.tags." ++ DeDot t.Key = k
      · rw [if_pos hcond] at h
        obtain rfl := Option.some.inj h
        exact ⟨List.mem_cons_self t ts, hcond⟩
      · rw [if_neg hcond] at h
        exact absurd h (by simp)

theorem lastTagFor_isSome {ts : List Tag} {t : Tag} (h : t ∈ ts) :
    (lastTagFor ts (s2l "aws.tags." ++ DeDot t.Key)).isSome = true := by
  induction ts with
  | nil => exact absurd h (List.not_mem_nil t)
  | cons u ts ih =>
    unfold lastTagFor
    cases hlast : lastTagFor ts (s2l "aws.tags." ++ DeDot t.Key) with
    | some t' => simp
    | none =>
      rcases List.mem_cons.mp h with rfl | hmem
      · rw [if_pos rfl]; simp
      · have := ih hmem
        rw [hlast] at this
        exact absurd this (by simp)

/-- C9 counterexample: with identifier "a,b" and tags k→v1 under "a" and
k→v2 under "b", `InsertTags` puts v1 and then overwrites it with v2, so the
found tag (k, v1) does not survive with its value — refuting "never
overwrites a tag field previously attached". -/
theorem C9_insert_tags_counterexample :
    (Tag.mk (s2l "k") (s2l "v1")) ∈
      collectedTags (fun _ => none)
        [(s2l "a", [⟨s2l "k", s2l "v1"⟩]), (s2l "b", [⟨s2l "k", s2l "v2"⟩])]
        (s2l "a,b") ∧
    lookupA
      (InsertTags (fun _ => none) [(s2l "a,b", ⟨0, []⟩)] (s2l "a,b")
        [(s2l "a", [⟨s2l "k", s2l "v1"⟩]), (s2l "b", [⟨s2l "k", s2l "v2"⟩])])
      (s2l "a,b") =
      some ⟨0, [(s2l "aws.tags.k", .str (s2l "v2"))]⟩ ∧
    s2l "v2" ≠ s2l "v1" := by
  refine ⟨by decide, by decide, by decide⟩

/-- C9 (amended): `InsertTags` changes no event other than the given
identity's; when no sub-identifier yields tags (directly or via the
ARN-derived short identifier) the map is unchanged; the event under the
identity receives exactly the put of every collected tag, in traversal
order with last-write-wins overwrite — so every collected tag's dedotted
key is present as an `aws.tags.<key>` field holding the value of the last
collected tag with that key — and no error occurs (the function is total). -/
theorem C9_insert_tags (findShortIdFromARN : Str → Option Str)
    (events : AList Event) (identifier : Str) (resourceTagMap : AList (List Tag)) :
    (∀ k, k ≠ identifier →
      lookupA (InsertTags findShortIdFromARN events identifier resourceTagMap) k =
        lookupA events k) ∧
    (collectedTags findShortIdFromARN resourceTagMap identifier = [] →
      InsertTags findShortIdFromARN events identifier resourceTagMap = events) ∧
    (∀ ev : Event, lookupA events identifier = some ev →
      lookupA (InsertTags findShortIdFromARN events identifier resourceTagMap)
          identifier =
        some { ev with RootFields := (putTagFields ev.RootFields
          (collectedTags findShortIdFromARN resourceTagMap identifier)) }) ∧
    (∀ ev : Event, ∀ t ∈ collectedTags findShortIdFromARN resourceTagMap identifier,
      ∃ t' ∈ collectedTags findShortIdFromARN resourceTagMap identifier,
        DeDot t'.Key = DeDot t.Key ∧
        lookupA (putTagFields ev.RootFields
            (collectedTags findShortIdFromARN resourceTagMap identifier))
          (s2l "aws.tags." ++ DeDot t.Key) = some (.str t'.Value)) := by
  refine ⟨?_, ?_, ?_, ?_⟩
  · intro k hk
    rw [insertTags_eq, lookupA_updateEventFields, if_neg hk]
  · intro hnone
    rw [insertTags_eq]
    have : (fun fs => putTagFields fs
        (collectedTags findShortIdFromARN resourceTagMap identifier)) =
        (fun fs : AList FieldVal => fs) := by
      funext fs
      rw [hnone]
      rfl
    rw [this]
    exact updateEventFields_id events identifier
  · intro ev hev
    rw [insertTags_eq, lookupA_updateEventFields, if_pos rfl, hev, Option.map_some']
  · intro ev t ht
    have hsome := lastTagFor_isSome ht
    cases hlast : lastTagFor (collectedTags findShortIdFromARN resourceTagMap identifier)
        (s2l "aws.tags." ++ DeDot t.Key) with
    | none => rw [hlast] at hsome; exact absurd hsome (by simp)
    | some t' =>
      obtain ⟨hmem, hkey⟩ := lastTagFor_mem hlast
      refine ⟨t', hmem, ?_, ?_⟩
      · have := congrArg (fun l => l.drop 9) hkey
        simpa using this
      · rw [putTagFields_lookup, hlast]

/-- C9 witness: at a concrete identifier, resource-tag map and event map,
the frame holds for another key, the identity's event receives the put of
its collected tags, and the collected tag's field is present. -/
theorem C9_insert_tags_witness :
    lookupA
      (InsertTags (fun _ => none) [(s2l "i-1", ⟨0, []⟩), (s2l "other", ⟨0, []⟩)]
        (s2l "i-1") [(s2l "i-1", [⟨s2l "env", s2l "prod"⟩])])
      (s2l "other") = some ⟨0, []⟩ ∧
    lookupA
      (InsertTags (fun _ => none) [(s2l "i-1", ⟨0, []⟩), (s2l "other", ⟨0, []⟩)]
        (s2l "i-1") [(s2l "i-1", [⟨s2l "env", s2l "prod"⟩])])
      (s2l "i-1") =
      some ⟨0, [(s2l "aws.tags.env", .str (s2l "prod"))]⟩ := by
  constructor
  · have h := (C9_insert_tags (fun _ => none)
      [(s2l "i-1", ⟨0, []⟩), (s2l "other", ⟨0, []⟩)] (s2l "i-1")
      [(s2l "i-1", [⟨s2l "env", s2l "prod"⟩])]).1 (s2l "other") (by decide)
    rw [h]
    decide
  · have h := (C9_insert_tags (fun _ => none)
      [(s2l "i-1", ⟨0, []⟩), (s2l "other", ⟨0, []⟩)] (s2l "i-1")
      [(s2l "i-1", [⟨s2l "env", s2l "prod"⟩])]).2.2.1 ⟨0, []⟩ (by decide)
    rw [h]
    decide

/- ===================== C3: fallback identity & tag gating ===================== -/

/-- C3: for a query result whose label splits into 3 fields, the
no-tag-filter loop of `createEvents` either leaves the events map unchanged
(empty values, misaligned timestamp) or touches exactly the fallback
identity region + accountID + namespace; under a pass with a non-empty tag
filter the result is skipped entirely (the map is returned unchanged); and
under an empty tag filter the tag-pass loop behaves like the
no-filter fallback. -/
theorem C3_fallback_identity (regionName accountName accountID : Str)
    (timestamp : Nat) (r : MetricDataResult) (mn ns st : Str)
    (hlabel : splitOnChar labelSeparator r.Label = [mn, ns, st]) :
    (∀ events result,
      noFilterStep regionName accountName accountID timestamp events r = some result →
      result = events ∨
        ∃ ev, result = insertA events (regionName ++ accountID ++ ns) ev) ∧
    (∀ (findShortIdFromARN : Str → Option Str) (tagsFilter : List Tag)
        (resourceTagMap : AList (List Tag)) (events : AList Event),
      tagsFilter ≠ [] →
      filterResultStep findShortIdFromARN regionName accountName accountID
        timestamp tagsFilter resourceTagMap events r = some events) ∧
    (∀ (findShortIdFromARN : Str → Option Str)
        (resourceTagMap : AList (List Tag)) (events result : AList Event),
      filterResultStep findShortIdFromARN regionName accountName accountID
        timestamp [] resourceTagMap events r = some result →
      result = events ∨
        ∃ ev, result = insertA events (regionName ++ accountID ++ ns) ev) := by
  refine ⟨?_, ?_, ?_⟩
  · intro events result h
    unfold noFilterStep at h
    rw [hlabel] at h
    simp only [namespaceIdx, identifierValueIdx, List.length_cons, List.length_nil,
      List.getElem?_cons_zero, List.getElem?_cons_succ] at h
    by_cases hv : r.Values.length = 0
    · rw [if_pos hv] at h
      left
      exact (Option.some.inj h).symm
    · rw [if_neg hv] at h
      cases hts : CheckTimestampInArray timestamp r.Timestamps with
      | none =>
        rw [hts] at h
        left
        exact (Option.some.inj h).symm
      | some timestampIdx =>
        simp only [hts] at h
        rw [if_pos (by omega : ¬(0 + 1 + 1 + 1 = 5))] at h
        cases hval : r.Values[timestampIdx]? with
        | none =>
          simp only [hval] at h
          exact Option.noConfusion h
        | some v =>
          simp only [hval] at h
          cases hins : InsertRootFields
              ((lookupA events (regionName ++ accountID ++ ns)).getD
                (InitEvent regionName accountName accountID timestamp)) v
              [mn, ns, st] with
          | none =>
            simp only [hins] at h
            exact Option.noConfusion h
          | some ev =>
            simp only [hins] at h
            right
            exact ⟨ev, (Option.some.inj h).symm⟩
  · intro findShortIdFromARN tagsFilter resourceTagMap events hne
    unfold filterResultStep
    rw [hlabel]
    simp only [List.length_cons, List.length_nil]
    by_cases hv : r.Values.length = 0
    · rw [if_pos hv]
    · rw [if_neg hv]
      cases hts : CheckTimestampInArray timestamp r.Timestamps with
      | none => simp only [hts]
      | some timestampIdx =>
        simp only [hts]
        rw [if_pos (by omega : ¬(0 + 1 + 1 + 1 = 5))]
        rw [if_pos (by
          intro hlen
          exact hne (List.length_eq_zero.mp hlen))]
  · intro findShortIdFromARN resourceTagMap events result h
    unfold filterResultStep at h
    rw [hlabel] at h
    simp only [namespaceIdx, identifierValueIdx, List.length_cons, List.length_nil,
      List.getElem?_cons_zero, List.getElem?_cons_succ, List.length_nil] at h
    by_cases hv : r.Values.length = 0
    · rw [if_pos hv] at h
      left
      exact (Option.some.inj h).symm
    · rw [if_neg hv] at h
      cases hts : CheckTimestampInArray timestamp r.Timestamps with
      | none =>
        rw [hts] at h
        left
        exact (Option.some.inj h).symm
      | some timestampIdx =>
        simp only [hts] at h
        rw [if_pos (by omega : ¬(0 + 1 + 1 + 1 = 5))] at h
        rw [if_neg (by omega : ¬((0 : Nat) ≠ 0))] at h
        cases hval : r.Values[timestampIdx]? with
        | none =>
          simp only [hval] at h
          exact Option.noConfusion h
        | some v =>
          simp only [hval] at h
          cases hins : InsertRootFields
              ((lookupA events (regionName ++ accountID ++ ns)).getD
                (InitEvent regionName accountName accountID timestamp)) v
              [mn, ns, st] with
          | none =>
            simp only [hins] at h
            exact Option.noConfusion h
          | some ev =>
            simp only [hins] at h
            right
            exact ⟨ev, (Option.some.inj h).symm⟩

/-- C3 witness: a 3-field label for namespace AWS/Billing under a pass with
the non-empty tag filter env=prod is suppressed entirely — the events map
comes back unchanged. -/
theorem C3_fallback_identity_witness :
    filterResultStep (fun _ => none) (s2l "us-east-1") (s2l "acct") (s2l "111") 5
      [⟨s2l "env", s2l "prod"⟩] [] []
      ⟨s2l "m|AWS/Billing|avg", [1], [5]⟩ = some [] :=
  (C3_fallback_identity (s2l "us-east-1") (s2l "acct") (s2l "111") 5
    ⟨s2l "m|AWS/Billing|avg", [1], [5]⟩ (s2l "m") (s2l "AWS/Billing") (s2l "avg")
    (by decide)).2.1 (fun _ => none) [⟨s2l "env", s2l "prod"⟩] [] [] (by decide)

/- ===================== C1: failure localization ===================== -/

/-- C1 counterexample: two regions, one exact-mode metric; `GetMetricData`
fails in region r1 and succeeds in region r2. The claim says the failure
never prevents region r2's events from being reported — but the run
reports nothing and returns the region-r1 error, while the identical run
with r1's call also succeeding reports one event carrying
cloud.region = r2. -/
theorem C1_partial_failure_counterexample :
    (Fetch
      ⟨[s2l "r1", s2l "r2"],
        [⟨s2l "AWS/EC2", [s2l "CPUUtilization"], [⟨s2l "InstanceId", s2l "i-1"⟩],
          [], [s2l "Average"]⟩],
        [], s2l "acct", s2l "111", 60,
        fun region _ =>
          if region = s2l "r1" then .error (s2l "boom")
          else .ok [⟨s2l "CPUUtilization|AWS/EC2|avg|InstanceId|i-1", [1], [7]⟩],
        fun _ _ => .ok [], fun _ _ => .ok [], fun _ => none,
        fun _ _ evs => evs⟩).1 = [] ∧
    (Fetch
      ⟨[s2l "r1", s2l "r2"],
        [⟨s2l "AWS/EC2", [s2l "CPUUtilization"], [⟨s2l "InstanceId", s2l "i-1"⟩],
          [], [s2l "Average"]⟩],
        [], s2l "acct", s2l "111", 60,
        fun region _ =>
          if region = s2l "r1" then .error (s2l "boom")
          else .ok [⟨s2l "CPUUtilization|AWS/EC2|avg|InstanceId|i-1", [1], [7]⟩],
        fun _ _ => .ok [], fun _ _ => .ok [], fun _ => none,
        fun _ _ evs => evs⟩).2 =
      some (.createEventsFailed (s2l "r1") (s2l "boom")) ∧
    ((Fetch
      ⟨[s2l "r1", s2l "r2"],
        [⟨s2l "AWS/EC2", [s2l "CPUUtilization"], [⟨s2l "InstanceId", s2l "i-1"⟩],
          [], [s2l "Average"]⟩],
        [], s2l "acct", s2l "111", 60,
        fun _ _ =>
          .ok [⟨s2l "CPUUtilization|AWS/EC2|avg|InstanceId|i-1", [1], [7]⟩],
        fun _ _ => .ok [], fun _ _ => .ok [], fun _ => none,
        fun _ _ evs => evs⟩).1.filter
      (fun ev => lookupA ev.RootFields (s2l "cloud.region") =
        some (.str (s2l "r2")))).length = 1 := by
  refine ⟨by decide, by decide, by decide⟩

/-- C1 (amended): a `ListMetrics` error is non-fatal and localized — the
namespace is skipped and the loop continues; a `GetResourcesTags` error is
non-fatal — the resource type is processed exactly as with an empty tag
map; but a `GetMetricData` error is fatal to the invocation —
`createEvents` propagates it and the region loop returns it at once, so
regions not yet processed contribute no events. -/
theorem C1_partial_failure_localization :
    (∀ (env : FetchEnv) (regionName namespace' : Str)
        (details : List NamespaceDetail)
        (rest : AList (List NamespaceDetail)) (reported : List Event) (e : Str),
      env.getListMetrics namespace' regionName = .error e →
      fetchNamespaces env regionName ((namespace', details) :: rest) reported =
        fetchNamespaces env regionName rest reported) ∧
    (∀ (findShortIdFromARN : Str → Option Str)
        (getResourcesTags : Str → Except Str (AList (List Tag)))
        (regionName accountName accountID : Str) (timestamp : Nat)
        (metricDataResults : List MetricDataResult) (events : AList Event)
        (resourceType : Str) (tagsFilter : List Tag) (e : Str),
      getResourcesTags resourceType = .error e →
      tagRTStep findShortIdFromARN getResourcesTags regionName accountName
        accountID timestamp metricDataResults events (resourceType, tagsFilter) =
      tagRTStep findShortIdFromARN (fun _ => .ok []) regionName accountName
        accountID timestamp metricDataResults events (resourceType, tagsFilter)) ∧
    (∀ (getMetricData : List MetricDataQuery → Except Str (List MetricDataResult))
        (getResourcesTags : Str → Except Str (AList (List Tag)))
        (findShortIdFromARN : Str → Option Str)
        (mws : List MetricsWithStatistics) (rtf : AList (List Tag))
        (regionName accountName accountID : Str) (periodSec : Nat) (e : Str),
      CreateMetricDataQueries mws periodSec ≠ [] →
      getMetricData (CreateMetricDataQueries mws periodSec) = .error e →
      createEvents getMetricData getResourcesTags findShortIdFromARN mws rtf
        regionName accountName accountID periodSec = .apiErr e) ∧
    (∀ (env : FetchEnv) (lmdt : ListMetricWithDetail) (regionName : Str)
        (rest : List Str) (reported : List Event) (e : Str),
      createEventsIn env regionName lmdt.MetricsWithStats lmdt.ResourceTypeFilters =
        .apiErr e →
      fetchExactRegions env lmdt (regionName :: rest) reported =
        (reported, some (.createEventsFailed regionName e))) := by
  refine ⟨?_, ?_, ?_, ?_⟩
  · intro env regionName namespace' details rest reported e h
    simp only [fetchNamespaces, h]
  · intro findShortIdFromARN getResourcesTags regionName accountName accountID
      timestamp metricDataResults events resourceType tagsFilter e h
    unfold tagRTStep
    simp only [h]
  · intro getMetricData getResourcesTags findShortIdFromARN mws rtf regionName
      accountName accountID periodSec e hne herr
    unfold createEvents
    rw [if_neg (by
      intro hlen
      exact hne (List.length_eq_zero.mp hlen))]
    simp only [herr]
  · intro env lmdt regionName rest reported e h
    simp only [fetchExactRegions, h]

/-- C1 witness: a concrete `createEvents` call whose `GetMetricData` oracle
fails returns exactly that error. -/
theorem C1_partial_failure_localization_witness :
    createEvents (fun _ => .error (s2l "boom")) (fun _ => .ok []) (fun _ => none)
      [⟨⟨s2l "AWS/EC2", s2l "CPUUtilization", []⟩, [s2l "Average"]⟩] []
      (s2l "r1") (s2l "acct") (s2l "111") 60 = .apiErr (s2l "boom") :=
  C1_partial_failure_localization.2.2.1 (fun _ => .error (s2l "boom"))
    (fun _ => .ok []) (fun _ => none)
    [⟨⟨s2l "AWS/EC2", s2l "CPUUtilization", []⟩, [s2l "Average"]⟩] []
    (s2l "r1") (s2l "acct") (s2l "111") 60 (s2l "boom") (by decide) rfl

end Cloudwatch
